import Mathlib

/-!
# Verification of `sheetNinja.ts`

A shallow embedding of the sheet-ninja spreadsheet O/R mapping layer.

Modelling conventions (the spreadsheet service itself is an external
collaborator, modelled per the spec's interface description, §6):

* A cell holds a JavaScript value: either a scalar (`Value`) or
  `undefined`/blank, so a cell is `Option Value` (`none` = blank cell /
  `undefined`). The service stores written grids verbatim.
* A record (JS object) is modelled as a total function `String → Option Value`;
  a missing field reads as `none` (JS `undefined`). `Object.assign` field
  presence is identified with having a non-`undefined` value (faithful for
  all records produced by decoding or by field assignment).
* A sheet is a grid (list of rows); `getLastRow`/`getLastColumn` are the last
  row/column containing content (a non-blank cell), as in the service API.
* Write effects are logged: `SheetState` carries the grid plus the list of
  `setValues` calls performed, so "performs zero range writes" and
  "one batched append call" are statable.
-/

namespace SheetNinja

/-- A scalar cell value (string or number suffice for the claims; the record
model is agnostic to the scalar universe). -/
inductive Value : Type where
  | str : String → Value
  | num : Int → Value
deriving DecidableEq, Repr

/-- A JavaScript value as seen in cells and record fields: `none` is
`undefined` (missing field / blank cell). -/
abbrev JsVal : Type := Option Value

/-- A record: one logical row as an open-ended key→value mapping. A key not
present maps to `none` (JS `undefined`). -/
abbrev Rec : Type := String → JsVal

/-- The empty record `{}`. -/
def emptyRec : Rec := fun _ => none

/-- JS property assignment `data[key] = v`. -/
def assignField (r : Rec) (key : String) (v : JsVal) : Rec :=
  fun k => if k = key then v else r k

/-- `Object.assign({}, prev, upd)`: shallow field union, fields of `upd`
override (a field counts as present when its value is not `undefined`). -/
def objectAssign (prev upd : Rec) : Rec :=
  fun k => match upd k with
  | some v => some v
  | none => prev k

/-- JS coercion of a cell value to an object key string (header cells are
used as record keys; `String(undefined) = "undefined"`). -/
def keyToString : JsVal → String
  | some (Value.str s) => s
  | some (Value.num n) => toString n
  | none => "undefined"

/-- A rectangular block of cells. -/
abbrev Grid : Type := List (List JsVal)

/-- A row with no content (every cell blank). -/
def isBlankRow (row : List JsVal) : Bool :=
  row.all (fun c => c = none)

/-- Number of leading columns of a row up to its last non-blank cell. -/
def rowWidth (row : List JsVal) : Nat :=
  row.length - (row.reverse.takeWhile (fun c => c = none)).length

/-- `Sheet.getLastRow()`: the 1-based index of the last row with content
(0 when the sheet is empty of content). -/
def getLastRow (g : Grid) : Nat :=
  g.length - (g.reverse.takeWhile (fun row => isBlankRow row)).length

/-- `Sheet.getLastColumn()`: the 1-based index of the last column with
content anywhere in the sheet. -/
def getLastColumn (g : Grid) : Nat :=
  g.foldr (fun row acc => max (rowWidth row) acc) 0

/-- Cell at 0-based row `r`, column `c`; out-of-range cells are blank. -/
def cellAt (g : Grid) (r c : Nat) : JsVal :=
  (g.getD r []).getD c none

/-- A row truncated/padded to exactly `n` columns (blank cells beyond the
stored row). -/
def padCols (row : List JsVal) (n : Nat) : List JsVal :=
  (List.range n).map (fun c => row.getD c none)

/-- `sheet.getRange(1, 1, numRows, numCols).getValues()`. -/
def getValuesRect (g : Grid) (numRows numCols : Nat) : Grid :=
  (List.range numRows).map (fun r => padCols (g.getD r []) numCols)

/-- Overwrite the leading cells of `old` with `new`, keeping cells of `old`
to the right of the written range. -/
def writeRow (old new : List JsVal) : List JsVal :=
  new ++ old.drop new.length

/-- Extend a grid with structurally-empty rows up to `n` rows. -/
def padRows (g : Grid) (n : Nat) : Grid :=
  g ++ List.replicate (n - g.length) ([] : List JsVal)

/-- Write one row of values starting at column 1 of 0-based row `r`. -/
def setRowAt (g : Grid) (r : Nat) (row : List JsVal) : Grid :=
  let g' := padRows g (r + 1)
  g'.set r (writeRow (g'.getD r []) row)

/-- Write a block of rows starting at column 1 of 0-based row `r`. -/
def setRowsAt : Grid → Nat → Grid → Grid
  | g, _, [] => g
  | g, r, row :: rest => setRowsAt (setRowAt g r row) (r + 1) rest

/-- `sheet.getRange(row, 1, _, _).setValues(vals)` with 1-based `row`. -/
def setValues1 (g : Grid) (row : Nat) (vals : Grid) : Grid :=
  setRowsAt g (row - 1) vals

/-- `sheet.insertRowsAfter(afterRow, n)`: insert `n` blank rows after
1-based row `afterRow`. -/
def insertRowsAfter (g : Grid) (afterRow n : Nat) : Grid :=
  g.take afterRow ++ List.replicate n ([] : List JsVal) ++ g.drop afterRow

/-- `sheet.deleteRows(rowPos, n)`: delete `n` rows starting at 1-based
`rowPos`. -/
def deleteRows (g : Grid) (rowPos n : Nat) : Grid :=
  g.take (rowPos - 1) ++ g.drop (rowPos - 1 + n)

/-- One logged `Range.setValues` call (all ranges in the code start at
column 1, so the 1-based start row and the written block determine it). -/
structure WriteOp : Type where
  row : Nat
  values : Grid
deriving DecidableEq, Repr

/-- A sheet handle: current cell grid plus the log of `setValues` calls
performed on it. -/
structure SheetState : Type where
  grid : Grid
  writes : List WriteOp
deriving DecidableEq, Repr

/-- Perform `getRange(row, 1, …).setValues(vals)` on a sheet: update the
grid and log the call. -/
def applyWrite (st : SheetState) (row : Nat) (vals : Grid) : SheetState :=
  ⟨setValues1 st.grid row vals, st.writes ++ [⟨row, vals⟩]⟩

/-! ## Row codec (`_rawDecoder`, `decodeRangeWith`, `decodeSheet`) -/

/-- A decoder receives the raw header row and one raw data row. -/
abbrev Decoder : Type := List JsVal → List JsVal → Rec

/-- The `keys.reduce((data, key, n) => { data[key] = values[n]; … }, {})`
loop of `_rawDecoder`: walk the keys positionally, assigning `values[n]`
(`undefined` past the end of the row). -/
def rawDecoderGo : Rec → List JsVal → List JsVal → Rec
  | r, [], _ => r
  | r, key :: keys, [] => rawDecoderGo (assignField r (keyToString key) none) keys []
  | r, key :: keys, v :: vs => rawDecoderGo (assignField r (keyToString key) v) keys vs

/-- `_rawDecoder(keys, values)`: record whose keys are the header entries and
whose values are the positionally aligned row cells. -/
def _rawDecoder (keys values : List JsVal) : Rec :=
  rawDecoderGo emptyRec keys values

/-- `decodeRangeWith(range, decoder)`: row 0 is the header, every later row
is decoded with it. -/
def decodeRangeWith (values : Grid) (decoder : Decoder) : List Rec :=
  match values with
  | [] => []
  | keys :: rest => rest.map (fun row => decoder keys row)

/-- `decodeSheet(sheet)`: decode the used range `(1,1)–(lastRow,lastColumn)`
with the raw decoder. -/
def decodeSheet (g : Grid) : List Rec :=
  decodeRangeWith (getValuesRect g (getLastRow g) (getLastColumn g)) _rawDecoder

/-! ## Sheet operations (`append`, `overwrite`) -/

/-- Header strings written back as cells. -/
def headerCells (header : List String) : List JsVal :=
  header.map (fun k => some (Value.str k))

/-- `keys.map(key => entry[key])`: one encoded row of a record. -/
def encodeRow (keys : List String) (entry : Rec) : List JsVal :=
  keys.map (fun k => entry k)

/-- `append(sheet, keys, data)`: no-op on an empty batch, otherwise one
`setValues` of all encoded rows starting at `lastRow + 1`. -/
def append (st : SheetState) (keys : List String) (data : List Rec) : SheetState :=
  if data.length = 0 then st
  else applyWrite st (getLastRow st.grid + 1) (data.map (fun entry => encodeRow keys entry))

/-- `overwrite(sheet, header, data)`: when content exists, insert
`data.length + 1` blank rows after the last row then delete the original
rows; finally write the header row and the encoded records at `(1,1)`. -/
def overwrite (st : SheetState) (header : List String) (data : List Rec) : SheetState :=
  let lastRow := getLastRow st.grid
  let g1 := if lastRow > 0
    then deleteRows (insertRowsAfter st.grid lastRow (data.length + 1)) 1 lastRow
    else st.grid
  applyWrite ⟨g1, st.writes⟩ 1 (headerCells header :: data.map (fun item => encodeRow header item))

/-! ## Merge engine (`updateOrInsertBy`) -/

/-- The batch de-duplication `data.reduce(…, { seen: new Set(), bag: [] }).bag`:
first-seen-wins on `toKey`, keeping original relative order. -/
def dedupByKey {α Id : Type} [DecidableEq Id] (toKey : α → Id) (data : List α) : List α :=
  (data.foldl
    (fun state item =>
      if toKey item ∈ state.1 then state
      else (state.1 ++ [toKey item], state.2 ++ [item]))
    (([] : List Id), ([] : List α))).2

/-- The inner scan of `updateOrInsertBy` over the (stale) decoded rows,
paired with their 0-based indices: on a key match, write the merged record's
header columns back into sheet row `i + 2`; stop at the first match unless
`duplicate`. Returns the sheet and the `found` flag. -/
def scanRows {Id : Type} [DecidableEq Id] (header : List String) (toKey : Rec → Id)
    (dup : Bool) (upd : Rec) : SheetState → List (Nat × Rec) → SheetState × Bool
  | st, [] => (st, false)
  | st, (i, prev) :: rest =>
    if toKey upd = toKey prev then
      let updated := objectAssign prev upd
      let st' := applyWrite st (i + 2) [encodeRow header updated]
      if dup then ((scanRows header toKey dup upd st' rest).1, true)
      else (st', true)
    else scanRows header toKey dup upd st rest

/-- `updateOrInsertBy(sheet, header, data, toKey, duplicate = false)`. -/
def updateOrInsertBy {Id : Type} [DecidableEq Id] (st : SheetState) (header : List String)
    (data : List Rec) (toKey : Rec → Id) (dup : Bool := false) : SheetState :=
  if data.length = 0 then st
  else
    let merged := dedupByKey toKey data
    let prevData := decodeSheet st.grid
    let res := merged.foldl
      (fun (acc : SheetState × List Rec) upd =>
        let scanned := scanRows header toKey dup upd acc.1 prevData.enum
        if scanned.2 then (scanned.1, acc.2)
        else (scanned.1, acc.2 ++ [upd]))
      (st, ([] : List Rec))
    if res.2.length ≠ 0 then append res.1 header res.2 else res.1

/-! ## Mapper façade -/

/-- `MapperInit`: sheet identity, persisted column keys, identifier
extraction. Records are the open `Rec` type. -/
structure MapperInit (Id : Type) : Type where
  sheetId : String
  sheetName : String
  keys : List String
  toId : Rec → Id

/-- The spreadsheet service boundary, modelled per the spec (§6): resolving
a workbook by id or a sheet by name propagates a lookup error when the
target is absent. `Wb` is the opaque workbook handle type. -/
structure SheetService (Wb : Type) : Type where
  openById : String → Except String Wb
  getSheetByName : Wb → String → Except String SheetState

/-- `Mapper.openSheet(sheetId, sheetName)`: resolve the workbook, then the
sheet. The source wraps this in `try { … } catch (ex) { throw ex }`, a
pass-through with no behavioural effect, so errors propagate unchanged. -/
def Mapper.openSheet {Wb : Type} (svc : SheetService Wb) (sheetId sheetName : String) :
    Except String SheetState := do
  let workbook ← svc.openById sheetId
  let sheet ← svc.getSheetByName workbook sheetName
  return sheet

/-- A constructed `Mapper`: the binding plus the resolved sheet handle. -/
structure Mapper (Id : Type) : Type where
  init : MapperInit Id
  sheet : SheetState

/-- The `Mapper` constructor: stores the init and resolves the sheet handle
immediately via `Mapper.openSheet`. -/
def Mapper.construct {Wb Id : Type} (svc : SheetService Wb) (init : MapperInit Id) :
    Except String (Mapper Id) := do
  let sheet ← Mapper.openSheet svc init.sheetId init.sheetName
  return ⟨init, sheet⟩

/-- `Mapper.readAll()`. -/
def Mapper.readAll {Id : Type} (m : Mapper Id) : List Rec :=
  decodeSheet m.sheet.grid

/-- `Mapper.upsert(data)`: merge engine with the bound keys and identifier,
`duplicate` left at its default `false`. -/
def Mapper.upsert {Id : Type} [DecidableEq Id] (m : Mapper Id) (data : List Rec) : Mapper Id :=
  ⟨m.init, updateOrInsertBy m.sheet m.init.keys data m.init.toId⟩

/-- `Mapper.deleteBy(pred)`: keep the records for which `pred` is false and
fully overwrite the sheet under the bound persisted keys. -/
def Mapper.deleteBy {Id : Type} (m : Mapper Id) (pred : Rec → Bool) : Mapper Id :=
  ⟨m.init, overwrite m.sheet m.init.keys ((Mapper.readAll m).filter (fun item => !pred item))⟩

/-! ## Specification-side definitions used to state the claims -/

/-- The header-aligned positional encoding of a record batch, per the spec's
round-trip property: the header row (as string cells) followed by one row per
record with cells taken by key order — exactly the rows `append` writes. -/
def encode (header : List String) (data : List Rec) : Grid :=
  headerCells header :: data.map (fun entry => encodeRow header entry)

/-- A record restricted to a key list: fields outside the list are absent. -/
def restrictRec (r : Rec) (keys : List String) : Rec :=
  fun k => if k ∈ keys then r k else none

/-- First-seen-wins de-duplication, stated structurally: keep the head,
drop every later element sharing its identifier, recurse. -/
def firstOccurrences {α Id : Type} [DecidableEq Id] (toKey : α → Id) : List α → List α
  | [] => []
  | x :: xs => x :: firstOccurrences toKey (xs.filter (fun y => decide (toKey y ≠ toKey x)))
termination_by l => l.length
decreasing_by
  simp_wf
  exact Nat.lt_succ_of_le (List.length_filter_le _ _)

/-- 0-based index of the first record whose identifier matches `upd`. -/
def firstMatchIdx {Id : Type} [DecidableEq Id] (toKey : Rec → Id) (upd : Rec) :
    List Rec → Option Nat
  | [] => none
  | r :: rest =>
    if toKey upd = toKey r then some 0
    else (firstMatchIdx toKey upd rest).map (· + 1)

/-- The grid effect of processing one incoming record in the merge engine's
scan with duplicate=false: rewrite sheet row (first match + 2) with the
merged record's header columns, or leave the grid alone when unmatched. -/
def mergeGridStep {Id : Type} [DecidableEq Id] (header : List String) (toKey : Rec → Id)
    (prevData : List Rec) (g : Grid) (u : Rec) : Grid :=
  match firstMatchIdx toKey u prevData with
  | some j =>
    setValues1 g (j + 2) [encodeRow header (objectAssign (prevData.getD j emptyRec) u)]
  | none => g

/-- The same effect expressed on the list of data rows (row `j` of the data
region is sheet row `j + 2`). -/
def mergeRowsStep {Id : Type} [DecidableEq Id] (header : List String) (toKey : Rec → Id)
    (prevData : List Rec) (rs : Grid) (u : Rec) : Grid :=
  match firstMatchIdx toKey u prevData with
  | some j => rs.set j (encodeRow header (objectAssign (prevData.getD j emptyRec) u))
  | none => rs

/-! ## Concrete instances (used for examples, witnesses and counterexamples) -/

/-- A string cell. -/
def strv (s : String) : JsVal := some (Value.str s)

/-- A numeric cell. -/
def numv (n : Int) : JsVal := some (Value.num n)

/-- The usual identifier extraction: project the `id` field. -/
def exToId : Rec → JsVal := fun r => r "id"

/-- Sheet with header `id,a,b` and one record `id 1, a x, b y`. -/
def exGrid1 : Grid := [[strv "id", strv "a", strv "b"], [numv 1, strv "x", strv "y"]]

/-- Partial upsert record `id 1, a z`. -/
def exUpd1 : Rec := fun k => if k = "id" then numv 1 else if k = "a" then strv "z" else none

/-- Sheet with header `id,a` and no data rows. -/
def exGrid6 : Grid := [[strv "id", strv "a"]]

/-- Record `id 5, a new`. -/
def exUpd6 : Rec := fun k => if k = "id" then numv 5 else if k = "a" then strv "new" else none

/-- Sheet with two rows sharing identifier `7` but different `b` fields. -/
def exGrid3 : Grid :=
  [[strv "id", strv "a", strv "b"], [numv 7, strv "p", strv "m"], [numv 7, strv "q", strv "n"]]

/-- Upsert record `id 7, a v`. -/
def exUpd3 : Rec := fun k => if k = "id" then numv 7 else if k = "a" then strv "v" else none

/-- Sheet with header `id` and records `id 1`, `id 2`, `id 3`. -/
def exGrid8 : Grid := [[strv "id"], [numv 1], [numv 2], [numv 3]]

/-- A mapper bound to `exGrid8` with persisted key `id`. -/
def exMapper8 : Mapper JsVal := ⟨⟨"workbook-1", "table", ["id"], exToId⟩, ⟨exGrid8, []⟩⟩

/-- The predicate selecting the record with `id = 2`. -/
def exPred8 : Rec → Bool := fun r => decide (r "id" = numv 2)

/-- Adversarial sheet for the header-row frame claim: row 1 is blank, row 2
has content, so `getLastRow` is `2`. -/
def cexGrid10 : Grid := [[], [strv "x"]]

/-- Key function projecting the field named by a blank header cell. -/
def cexToKey10 : Rec → JsVal := fun r => r "undefined"

/-- Record matching the single decoded row of `cexGrid10`. -/
def cexUpd10a : Rec := fun k => if k = "undefined" then strv "x" else none

/-- Record matching nothing in `cexGrid10`, so it gets appended. -/
def cexUpd10b : Rec :=
  fun k => if k = "undefined" then strv "w" else if k = "z" then strv "w" else none

/-- Sheet for the idempotence counterexample: header `a,b`, rows
`A1,B1` and `A2,B2`. -/
def cexGrid2 : Grid := [[strv "a", strv "b"], [strv "A1", strv "B1"], [strv "A2", strv "B2"]]

/-- Partial record whose merge into row 1 changes that row's identifier. -/
def cexUpd2a : Rec := fun k => if k = "a" then strv "U" else none

/-- Record matching row 2 of `cexGrid2` (and, after the first run, also the
rewritten row 1). -/
def cexUpd2b : Rec := fun k => if k = "a" then strv "A2" else if k = "b" then strv "B2" else none

/-- A key function under which merging `cexUpd2a` into row 1 moves that row
from identifier `k1` to identifier `k2`. -/
def cexToKey2 : Rec → String := fun r =>
  if r "a" = strv "U" ∧ r "b" = strv "B1" then "k2"
  else if r "a" = strv "U" ∧ r "b" = none then "k1"
  else if r "a" = strv "A1" then "k1"
  else if r "a" = strv "A2" then "k2"
  else "other"

/-- A fully-populated new record `id 2, a n, b m` (used in the idempotence
witness together with the partial record `exUpd1`). -/
def exUpdNew : Rec :=
  fun k => if k = "id" then numv 2
    else if k = "a" then strv "n"
    else if k = "b" then strv "m"
    else none

/-- A demo service with one workbook `workbook-1` holding one sheet `table`. -/
def demoService : SheetService Unit where
  openById := fun sheetId =>
    if sheetId = "workbook-1" then Except.ok () else Except.error "workbook not found"
  getSheetByName := fun _ sheetName =>
    if sheetName = "table" then Except.ok ⟨exGrid8, []⟩ else Except.error "sheet not found"

/-- A mapper init pointing at the demo service's sheet. -/
def demoInit : MapperInit JsVal := ⟨"workbook-1", "table", ["id"], exToId⟩

/-! ## Codec lemmas -/

theorem keyToString_str (s : String) : keyToString (some (Value.str s)) = s := rfl

theorem rawDecoderGo_encodeRow (e : Rec) :
    ∀ (header : List String) (r : Rec),
      rawDecoderGo r (headerCells header) (encodeRow header e)
        = fun k => if k ∈ header then e k else r k := by
  intro header
  induction header with
  | nil => intro r; funext k; simp [headerCells, encodeRow, rawDecoderGo]
  | cons h hs ih =>
    intro r
    funext k
    simp only [headerCells, encodeRow, List.map_cons, rawDecoderGo, keyToString_str]
    rw [show (List.map (fun k => some (Value.str k)) hs) = headerCells hs from rfl,
      show (List.map (fun k => e k) hs) = encodeRow hs e from rfl, ih]
    by_cases hk : k ∈ hs
    · simp [hk, List.mem_cons]
    · by_cases hk2 : k = h <;> simp [hk, hk2, assignField, List.mem_cons]

theorem rawDecoder_encodeRow (e : Rec) (header : List String) :
    _rawDecoder (headerCells header) (encodeRow header e) = restrictRec e header := by
  funext k
  rw [_rawDecoder, rawDecoderGo_encodeRow]
  simp [restrictRec, emptyRec]

/-! ## De-duplication lemmas -/

theorem dedupFold_eq {α Id : Type} [DecidableEq Id] (toKey : α → Id) :
    ∀ (l : List α) (seen : List Id) (bag : List α),
      (l.foldl
        (fun state item =>
          if toKey item ∈ state.1 then state
          else (state.1 ++ [toKey item], state.2 ++ [item]))
        (seen, bag)).2
      = bag ++ firstOccurrences toKey (l.filter (fun y => decide (toKey y ∉ seen))) := by
  intro l
  induction l with
  | nil => intro seen bag; simp [firstOccurrences]
  | cons x xs ih =>
    intro seen bag
    by_cases h : toKey x ∈ seen
    · simpa [h, List.foldl_cons] using ih seen bag
    · simp only [List.foldl_cons, if_neg h]
      rw [ih (seen ++ [toKey x]) (bag ++ [x]), List.filter_cons,
        if_pos (by simp [h] : decide (toKey x ∉ seen) = true), firstOccurrences]
      have hfilter :
          xs.filter (fun y => decide (toKey y ∉ seen ++ [toKey x]))
            = (xs.filter (fun y => decide (toKey y ∉ seen))).filter
                (fun y => decide (toKey y ≠ toKey x)) := by
        rw [List.filter_filter]
        apply List.filter_congr
        intro y _
        by_cases h1 : toKey y ∈ seen <;> by_cases h2 : toKey y = toKey x <;>
          simp [h1, h2, List.mem_append]
      rw [hfilter]
      simp

theorem firstOccurrences_sublist {α Id : Type} [DecidableEq Id] (toKey : α → Id) :
    ∀ (n : Nat) (l : List α), l.length ≤ n → (firstOccurrences toKey l).Sublist l := by
  intro n
  induction n with
  | zero =>
    intro l hl
    have : l = [] := List.length_eq_zero.mp (Nat.le_zero.mp hl)
    subst this
    simp [firstOccurrences]
  | succ n ih =>
    intro l hl
    match l with
    | [] => simp [firstOccurrences]
    | x :: xs =>
      rw [firstOccurrences]
      apply List.Sublist.cons₂
      have h1 : (xs.filter (fun y => decide (toKey y ≠ toKey x))).length ≤ n :=
        Nat.le_trans (List.length_filter_le _ _) (Nat.le_of_succ_le_succ hl)
      exact (ih _ h1).trans (List.filter_sublist xs)

/-! ## Grid write lemmas -/

theorem padRows_of_le (g : Grid) (n : Nat) (h : n ≤ g.length) : padRows g n = g := by
  rw [padRows, Nat.sub_eq_zero_of_le h]
  simp

theorem getD_append_cons {α : Type} :
    ∀ (g : List α) (x : α) (t : List α) (d : α), ((g ++ x :: t)).getD g.length d = x := by
  intro g
  induction g with
  | nil => intro x t d; rfl
  | cons y g ih => intro x t d; simpa using ih x t d

theorem set_append_cons {α : Type} :
    ∀ (g : List α) (x : α) (t : List α) (v : α), (g ++ x :: t).set g.length v = g ++ v :: t := by
  intro g
  induction g with
  | nil => intro x t v; rfl
  | cons y g ih => intro x t v; simpa using ih x t v

theorem setRowsAt_append : ∀ (vals g : Grid) (r : Nat), g.length = r →
    setRowsAt g r vals = g ++ vals := by
  intro vals
  induction vals with
  | nil => intro g r _; simp [setRowsAt]
  | cons v vs ih =>
    intro g r hr
    rw [setRowsAt]
    have hpad : padRows g (r + 1) = g ++ [[]] := by
      rw [padRows, hr]
      simp [List.replicate]
    have hrow : setRowAt g r v = g ++ [v] := by
      rw [setRowAt]
      simp only [hpad]
      have h1 : (g ++ [[]]).getD r [] = ([] : List JsVal) := by
        rw [← hr]
        exact getD_append_cons g [] [] []
      rw [h1]
      have h2 : writeRow [] v = v := by simp [writeRow]
      rw [h2, ← hr, set_append_cons]
    rw [hrow]
    rw [ih (g ++ [v]) (r + 1) (by simpa using hr)]
    simp

theorem setRowsAt_replicate_nil : ∀ (vals g : Grid) (r : Nat), g.length = r →
    setRowsAt (g ++ List.replicate vals.length []) r vals = g ++ vals := by
  intro vals
  induction vals with
  | nil => intro g r _; simp [setRowsAt]
  | cons v vs ih =>
    intro g r hr
    have hsplit : g ++ List.replicate (v :: vs).length ([] : List JsVal)
        = (g ++ [[]]) ++ List.replicate vs.length [] := by
      simp [List.replicate_succ]
    rw [hsplit, setRowsAt]
    have hlen : ((g ++ [[]]) ++ List.replicate vs.length ([] : List JsVal)).length
        = r + 1 + vs.length := by simp [hr]; omega
    have hpad : padRows ((g ++ [[]]) ++ List.replicate vs.length ([] : List JsVal)) (r + 1)
        = (g ++ [[]]) ++ List.replicate vs.length [] := by
      apply padRows_of_le
      rw [hlen]
      exact Nat.le_add_right _ _
    have hrow : setRowAt ((g ++ [[]]) ++ List.replicate vs.length ([] : List JsVal)) r v
        = (g ++ v :: List.replicate vs.length []) := by
      rw [setRowAt]
      simp only [hpad]
      have h1 : ((g ++ [] :: List.replicate vs.length ([] : List JsVal))).getD r []
          = ([] : List JsVal) := by
        rw [← hr]
        exact getD_append_cons g [] _ []
      have h2 : ((g ++ [[]]) ++ List.replicate vs.length ([] : List JsVal))
          = g ++ [] :: List.replicate vs.length [] := by simp
      rw [h2, h1]
      have h3 : writeRow [] v = v := by simp [writeRow]
      rw [h3, ← hr, set_append_cons]
    rw [hrow]
    have h4 : g ++ v :: List.replicate vs.length ([] : List JsVal)
        = (g ++ [v]) ++ List.replicate vs.length [] := by simp
    rw [h4, ih (g ++ [v]) (r + 1) (by simpa using hr)]
    simp

theorem overwrite_eq (st : SheetState) (header : List String) (data : List Rec)
    (hlast : getLastRow st.grid = st.grid.length) :
    overwrite st header data
      = ⟨headerCells header :: data.map (fun item => encodeRow header item),
         st.writes ++ [⟨1, headerCells header :: data.map (fun item => encodeRow header item)⟩]⟩ := by
  rw [overwrite]
  rcases hg : st.grid with _ | ⟨row0, rows⟩
  · rw [if_neg (by decide : ¬ getLastRow ([] : Grid) > 0), applyWrite]
    simp only [setValues1]
    rw [show (1 : Nat) - 1 = 0 from rfl, setRowsAt_append _ [] 0 rfl]
    simp
  · have hpos : 0 < getLastRow st.grid := by
      rw [hlast, hg]
      simp
    rw [← hg]
    rw [if_pos hpos, hlast]
    have hins : insertRowsAfter st.grid st.grid.length (data.length + 1)
        = st.grid ++ List.replicate (data.length + 1) [] := by
      rw [insertRowsAfter]
      simp
    have hdel : deleteRows (st.grid ++ List.replicate (data.length + 1) ([] : List JsVal))
        1 st.grid.length = List.replicate (data.length + 1) [] := by
      rw [deleteRows]
      simp
    rw [hins, hdel, applyWrite]
    simp only [setValues1]
    have hlen : (headerCells header :: data.map (fun item => encodeRow header item)).length
        = data.length + 1 := by simp
    rw [show (1 : Nat) - 1 = 0 from rfl]
    have := setRowsAt_replicate_nil
      (headerCells header :: data.map (fun item => encodeRow header item)) [] 0 rfl
    rw [hlen] at this
    simpa using this

/-! ## Header-row frame lemmas (C10) -/

theorem getD_set_ne {α : Type} :
    ∀ (l : List α) (r p : Nat) (v : α) (d : α), r ≠ p →
      (l.set r v).getD p d = l.getD p d := by
  intro l
  induction l with
  | nil => intro r p v d _; simp
  | cons x t ih =>
    intro r p v d hrp
    match r, p with
    | 0, 0 => exact absurd rfl hrp
    | 0, p + 1 => simp [List.set]
    | r + 1, 0 => simp [List.set]
    | r + 1, p + 1 =>
      simp only [List.set, List.getD_cons_succ]
      exact ih r p v d (fun h => hrp (by rw [h]))

theorem padRows_getD (g : Grid) (n : Nat) (p : Nat) :
    (padRows g n).getD p [] = g.getD p [] := by
  rw [padRows]
  by_cases hp : p < g.length
  · rw [List.getD_append _ _ _ _ hp]
  · have h1 : g.getD p [] = [] := by
      rw [List.getD_eq_getElem?_getD, List.getElem?_eq_none (by omega)]
      rfl
    rw [h1]
    by_cases hp2 : p < g.length + (n - g.length)
    · rw [List.getD_append_right _ _ _ _ (by omega)]
      rw [List.getD_eq_getElem?_getD]
      rcases h3 : (List.replicate (n - g.length) ([] : List JsVal))[p - g.length]? with _ | row
      · rfl
      · have := List.getElem?_mem h3
        rw [List.eq_of_mem_replicate this]
        rfl
    · rw [List.getD_eq_getElem?_getD, List.getElem?_eq_none (by simp; omega)]
      rfl

theorem setRowAt_getD_ne (g : Grid) (r p : Nat) (row : List JsVal) (h : r ≠ p) :
    (setRowAt g r row).getD p [] = g.getD p [] := by
  show ((padRows g (r + 1)).set r
      (writeRow ((padRows g (r + 1)).getD r []) row)).getD p [] = g.getD p []
  rw [getD_set_ne _ _ _ _ _ h, padRows_getD]

theorem setRowsAt_getD_lt : ∀ (vals : Grid) (g : Grid) (r p : Nat), p < r →
    (setRowsAt g r vals).getD p [] = g.getD p [] := by
  intro vals
  induction vals with
  | nil => intro g r p _; rfl
  | cons v vs ih =>
    intro g r p hp
    rw [setRowsAt, ih _ _ _ (Nat.lt_succ_of_lt hp),
      setRowAt_getD_ne _ _ _ _ (Nat.ne_of_gt hp)]

theorem setValues1_getD_zero (g : Grid) (row : Nat) (vals : Grid) (h : 2 ≤ row) :
    (setValues1 g row vals).getD 0 [] = g.getD 0 [] := by
  rw [setValues1]
  exact setRowsAt_getD_lt vals g (row - 1) 0 (by omega)

theorem getLastRow_pos (g : Grid) (h : isBlankRow (g.getD 0 []) = false) :
    1 ≤ getLastRow g := by
  match g, h with
  | [], h => exact absurd h (by decide)
  | row0 :: rest, h =>
    by_contra hlt
    have h0 : getLastRow (row0 :: rest) = 0 := by omega
    rw [getLastRow] at h0
    have hge : ((row0 :: rest).reverse.takeWhile (fun row => isBlankRow row)).length
        ≤ (row0 :: rest).length := by
      calc ((row0 :: rest).reverse.takeWhile (fun row => isBlankRow row)).length
          ≤ (row0 :: rest).reverse.length :=
            List.length_le_of_sublist (List.takeWhile_sublist _)
        _ = (row0 :: rest).length := List.length_reverse _
    have heq : (row0 :: rest).reverse.takeWhile (fun row => isBlankRow row)
        = (row0 :: rest).reverse := by
      apply (List.takeWhile_prefix _).eq_of_length
      rw [List.length_reverse]
      omega
    have hmem : row0 ∈ (row0 :: rest).reverse := by simp
    rw [← heq] at hmem
    have hblank : isBlankRow row0 = true := List.mem_takeWhile_imp hmem
    simp only [List.getD_cons_zero] at h
    rw [h] at hblank
    exact absurd hblank (by decide)

/-! ## Scan and merge-engine lemmas -/

theorem snd_mem_of_mem_enumFrom {α : Type} :
    ∀ (l : List α) (n : Nat) (p : Nat × α), p ∈ List.enumFrom n l → p.2 ∈ l := by
  intro l
  induction l with
  | nil => intro n p hp; simp [List.enumFrom] at hp
  | cons x xs ih =>
    intro n p hp
    simp only [List.enumFrom, List.mem_cons] at hp
    rcases hp with hp | hp
    · subst hp; exact List.mem_cons_self _ _
    · exact List.mem_cons_of_mem _ (ih _ _ hp)

theorem dedupByKey_eq {α Id : Type} [DecidableEq Id] (toKey : α → Id) (data : List α) :
    dedupByKey toKey data = firstOccurrences toKey data := by
  rw [dedupByKey, dedupFold_eq]
  simp

theorem dedup_singleton {α Id : Type} [DecidableEq Id] (toKey : α → Id) (x : α) :
    dedupByKey toKey [x] = [x] := by
  simp [dedupByKey]

theorem scanRows_false_eq {Id : Type} [DecidableEq Id] (header : List String)
    (toKey : Rec → Id) (upd : Rec) :
    ∀ (rows : List (Nat × Rec)) (st : SheetState),
      scanRows header toKey false upd st rows
        = match rows.filter (fun p => decide (toKey upd = toKey p.2)) with
          | [] => (st, false)
          | p :: _ => (applyWrite st (p.1 + 2) [encodeRow header (objectAssign p.2 upd)], true) := by
  intro rows
  induction rows with
  | nil => intro st; simp [scanRows]
  | cons p rest ih =>
    intro st
    obtain ⟨i, prev⟩ := p
    by_cases h : toKey upd = toKey prev
    · simp [scanRows, h, List.filter_cons]
    · simp only [scanRows, if_neg h, List.filter_cons]
      rw [if_neg (by simp [h])]
      exact ih st

theorem scanRows_true_eq {Id : Type} [DecidableEq Id] (header : List String)
    (toKey : Rec → Id) (upd : Rec) :
    ∀ (rows : List (Nat × Rec)) (st : SheetState),
      scanRows header toKey true upd st rows
        = ((rows.filter (fun p => decide (toKey upd = toKey p.2))).foldl
            (fun s p => applyWrite s (p.1 + 2) [encodeRow header (objectAssign p.2 upd)]) st,
          rows.any (fun p => decide (toKey upd = toKey p.2))) := by
  intro rows
  induction rows with
  | nil => intro st; simp [scanRows]
  | cons p rest ih =>
    intro st
    obtain ⟨i, prev⟩ := p
    by_cases h : toKey upd = toKey prev
    · simp only [scanRows, if_pos h, List.filter_cons, List.any_cons]
      rw [if_pos (by simp [h]), ih]
      simp [h]
    · simp only [scanRows, if_neg h, List.filter_cons, List.any_cons]
      rw [if_neg (by simp [h]), ih]
      simp [h]

theorem updateOrInsertBy_single_eq {Id : Type} [DecidableEq Id] (st : SheetState)
    (header : List String) (upd : Rec) (toKey : Rec → Id) (dup : Bool) :
    updateOrInsertBy st header [upd] toKey dup
      = (if (scanRows header toKey dup upd st (decodeSheet st.grid).enum).2
          then (scanRows header toKey dup upd st (decodeSheet st.grid).enum).1
          else append (scanRows header toKey dup upd st (decodeSheet st.grid).enum).1
            header [upd]) := by
  rw [updateOrInsertBy]
  simp only [List.length_cons, List.length_nil, Nat.zero_add, dedup_singleton,
    List.foldl_cons, List.foldl_nil]
  cases hsc : (scanRows header toKey dup upd st (decodeSheet st.grid).enum).2 <;>
    simp [hsc]

theorem updateOrInsertBy_single_false {Id : Type} [DecidableEq Id] (st : SheetState)
    (header : List String) (upd : Rec) (toKey : Rec → Id) :
    updateOrInsertBy st header [upd] toKey false
      = match (decodeSheet st.grid).enum.filter (fun p => decide (toKey upd = toKey p.2)) with
        | [] => applyWrite st (getLastRow st.grid + 1) [encodeRow header upd]
        | p :: _ => applyWrite st (p.1 + 2) [encodeRow header (objectAssign p.2 upd)] := by
  rw [updateOrInsertBy_single_eq, scanRows_false_eq]
  cases hm : (decodeSheet st.grid).enum.filter (fun p => decide (toKey upd = toKey p.2)) with
  | nil => simp [append, encodeRow]
  | cons p rest => simp

/-! ## Idempotence development: list utilities -/

theorem getD_set_self {α : Type} :
    ∀ (l : List α) (r : Nat) (v d : α), r < l.length → (l.set r v).getD r d = v := by
  intro l
  induction l with
  | nil => intro r v d h; simp at h
  | cons x t ih =>
    intro r v d h
    match r with
    | 0 => rfl
    | r + 1 =>
      simp only [List.set, List.getD_cons_succ]
      exact ih r v d (by simpa using h)

theorem set_getD_self {α : Type} :
    ∀ (l : List α) (r : Nat) (d : α), l.set r (l.getD r d) = l := by
  intro l
  induction l with
  | nil => intro r d; rfl
  | cons x t ih =>
    intro r d
    match r with
    | 0 => rfl
    | r + 1 =>
      simp only [List.set, List.getD_cons_succ]
      rw [ih r d]

theorem map_getD {α β : Type} :
    ∀ (l : List α) (f : α → β) (p : Nat) (d : α) (d2 : β), p < l.length →
      (l.map f).getD p d2 = f (l.getD p d) := by
  intro l
  induction l with
  | nil => intro f p d d2 h; simp at h
  | cons x t ih =>
    intro f p d d2 h
    match p with
    | 0 => rfl
    | p + 1 =>
      simp only [List.map_cons, List.getD_cons_succ]
      exact ih f p d d2 (by simpa using h)

theorem getD_mem {α : Type} :
    ∀ (l : List α) (p : Nat) (d : α), p < l.length → l.getD p d ∈ l := by
  intro l
  induction l with
  | nil => intro p d h; simp at h
  | cons x t ih =>
    intro p d h
    match p with
    | 0 => exact List.mem_cons_self _ _
    | p + 1 =>
      simp only [List.getD_cons_succ]
      exact List.mem_cons_of_mem _ (ih p d (by simpa using h))

theorem getLast?_eq_getD {α : Type} :
    ∀ (l : List α) (d : α), l ≠ [] → l.getLast? = some (l.getD (l.length - 1) d) := by
  intro l
  induction l with
  | nil => intro d h; exact absurd rfl h
  | cons x t ih =>
    intro d _
    match ht : t with
    | [] => rfl
    | y :: t2 =>
      rw [List.getLast?_cons_cons, ih d (by simp)]
      simp

theorem foldl_fixed {α β : Type} (f : β → α → β) (g : β) :
    ∀ (us : List α), (∀ u ∈ us, f g u = g) → us.foldl f g = g := by
  intro us
  induction us with
  | nil => intro _; rfl
  | cons u us ih =>
    intro h
    rw [List.foldl_cons, h u (List.mem_cons_self _ _)]
    exact ih (fun v hv => h v (List.mem_cons_of_mem _ hv))

/-! ## Idempotence development: first-match lemmas -/

theorem firstMatchIdx_lt_length {Id : Type} [DecidableEq Id] (toKey : Rec → Id) (upd : Rec) :
    ∀ (l : List Rec) (j : Nat), firstMatchIdx toKey upd l = some j → j < l.length := by
  intro l
  induction l with
  | nil => intro j h; exact Option.noConfusion h
  | cons r rest ih =>
    intro j h
    rw [firstMatchIdx] at h
    by_cases hk : toKey upd = toKey r
    · rw [if_pos hk] at h
      cases h
      simp
    · rw [if_neg hk] at h
      match hrec : firstMatchIdx toKey upd rest with
      | none => rw [hrec] at h; simp at h
      | some j2 =>
        rw [hrec] at h
        injection h with h
        subst h
        have := ih j2 hrec
        simp
        omega

theorem firstMatchIdx_getD_key {Id : Type} [DecidableEq Id] (toKey : Rec → Id) (upd : Rec) :
    ∀ (l : List Rec) (j : Nat), firstMatchIdx toKey upd l = some j →
      toKey upd = toKey (l.getD j emptyRec) := by
  intro l
  induction l with
  | nil => intro j h; exact Option.noConfusion h
  | cons r rest ih =>
    intro j h
    rw [firstMatchIdx] at h
    by_cases hk : toKey upd = toKey r
    · rw [if_pos hk] at h
      cases h
      exact hk
    · rw [if_neg hk] at h
      match hrec : firstMatchIdx toKey upd rest with
      | none => rw [hrec] at h; simp at h
      | some j2 =>
        rw [hrec] at h
        injection h with h
        subst h
        simpa using ih j2 hrec

theorem firstMatchIdx_min {Id : Type} [DecidableEq Id] (toKey : Rec → Id) (upd : Rec) :
    ∀ (l : List Rec) (j : Nat), firstMatchIdx toKey upd l = some j →
      ∀ p < j, toKey upd ≠ toKey (l.getD p emptyRec) := by
  intro l
  induction l with
  | nil => intro j h; exact Option.noConfusion h
  | cons r rest ih =>
    intro j h p hp
    rw [firstMatchIdx] at h
    by_cases hk : toKey upd = toKey r
    · rw [if_pos hk] at h
      cases h
      omega
    · rw [if_neg hk] at h
      match hrec : firstMatchIdx toKey upd rest with
      | none => rw [hrec] at h; simp at h
      | some j2 =>
        rw [hrec] at h
        injection h with h
        subst h
        match p with
        | 0 => simpa using hk
        | p + 1 =>
          simp only [List.getD_cons_succ]
          have hp2 : p + 1 < j2 + 1 := hp
          exact ih j2 hrec p (by omega)

theorem firstMatchIdx_none {Id : Type} [DecidableEq Id] (toKey : Rec → Id) (upd : Rec) :
    ∀ (l : List Rec), firstMatchIdx toKey upd l = none →
      ∀ p < l.length, toKey upd ≠ toKey (l.getD p emptyRec) := by
  intro l
  induction l with
  | nil => intro _ p hp; simp at hp
  | cons r rest ih =>
    intro h p hp
    rw [firstMatchIdx] at h
    by_cases hk : toKey upd = toKey r
    · rw [if_pos hk] at h; simp at h
    · rw [if_neg hk] at h
      match p with
      | 0 => simpa using hk
      | p + 1 =>
        simp only [List.getD_cons_succ]
        match hrec : firstMatchIdx toKey upd rest with
        | none => exact ih hrec p (by simp at hp; omega)
        | some j2 => rw [hrec] at h; simp at h

theorem firstMatchIdx_eq_some_of {Id : Type} [DecidableEq Id] (toKey : Rec → Id) (upd : Rec) :
    ∀ (l : List Rec) (j : Nat), j < l.length →
      (∀ p < j, toKey upd ≠ toKey (l.getD p emptyRec)) →
      toKey upd = toKey (l.getD j emptyRec) →
      firstMatchIdx toKey upd l = some j := by
  intro l
  induction l with
  | nil => intro j h _ _; simp at h
  | cons r rest ih =>
    intro j hj hmin hkey
    rw [firstMatchIdx]
    match j with
    | 0 =>
      rw [if_pos (by simpa using hkey)]
    | j + 1 =>
      have h0 : toKey upd ≠ toKey r := by
        have := hmin 0 (by omega)
        simpa using this
      rw [if_neg h0, ih j (by simpa using hj)
        (fun p hp => by simpa using hmin (p + 1) (by omega))
        (by simpa using hkey)]
      rfl

/-! ## Idempotence development: record lemmas -/

theorem objectAssign_self (u : Rec) : objectAssign u u = u := by
  funext k
  rw [objectAssign]
  match u k with
  | some v => rfl
  | none => rfl

theorem objectAssign_objectAssign (r u : Rec) :
    objectAssign (objectAssign r u) u = objectAssign r u := by
  funext k
  cases hk : u k <;> simp [objectAssign, hk]

theorem restrictRec_of_supported (u : Rec) (header : List String)
    (hsupp : ∀ k, u k ≠ none → k ∈ header) : restrictRec u header = u := by
  funext k
  rw [restrictRec]
  by_cases hk : k ∈ header
  · rw [if_pos hk]
  · rw [if_neg hk]
    match hu : u k with
    | none => rfl
    | some v => exact absurd (hsupp k (by rw [hu]; simp)) hk

theorem objectAssign_supported (r u : Rec) (header : List String)
    (hr : ∀ k, r k ≠ none → k ∈ header) (hu : ∀ k, u k ≠ none → k ∈ header) :
    ∀ k, objectAssign r u k ≠ none → k ∈ header := by
  intro k h
  match hk : u k with
  | some v => exact hu k (by rw [hk]; simp)
  | none =>
    have heq : objectAssign r u k = r k := by
      show (match u k with | some v => some v | none => r k) = r k
      rw [hk]
    rw [heq] at h
    exact hr k h

/-! ## Idempotence development: decode-shape lemmas -/

theorem length_headerCells (header : List String) :
    (headerCells header).length = header.length := by
  simp [headerCells]

theorem padCols_self : ∀ (row : List JsVal), padCols row row.length = row := by
  intro row
  induction row with
  | nil => rfl
  | cons v t ih =>
    rw [padCols, List.length_cons, List.range_succ_eq_map, List.map_cons, List.map_map]
    have h1 : ((fun c => (v :: t).getD c none) ∘ Nat.succ) = (fun c => t.getD c none) := by
      funext c
      simp
    rw [h1, show ((v :: t).getD 0 none) = v from rfl,
      show (List.range t.length).map (fun c => t.getD c none) = padCols t t.length from rfl,
      ih]

theorem getValuesRect_len : ∀ (g : Grid) (w : Nat),
    getValuesRect g g.length w = g.map (fun row => padCols row w) := by
  intro g
  induction g with
  | nil => intro w; rfl
  | cons r t ih =>
    intro w
    rw [getValuesRect, List.length_cons, List.range_succ_eq_map, List.map_cons, List.map_map]
    have h1 : ((fun p => padCols ((r :: t).getD p []) w) ∘ Nat.succ)
        = (fun p => padCols (t.getD p []) w) := by
      funext p
      simp
    rw [h1, show padCols ((r :: t).getD 0 []) w = padCols r w from rfl,
      show (List.range t.length).map (fun p => padCols (t.getD p []) w)
        = getValuesRect t t.length w from rfl, ih, List.map_cons]

theorem takeWhile_nil_of_all {α : Type} (p : α → Bool) (l : List α)
    (h : ∀ a ∈ l, p a = false) : l.takeWhile p = [] := by
  match l with
  | [] => rfl
  | x :: t => simp [List.takeWhile_cons, h x (List.mem_cons_self _ _)]

theorem rowWidth_eq_of_all_some (row : List JsVal) (h : ∀ c ∈ row, c ≠ none) :
    rowWidth row = row.length := by
  rw [rowWidth, takeWhile_nil_of_all]
  · simp
  · intro c hc
    have hc2 : c ≠ none := h c (List.mem_reverse.mp hc)
    simpa using hc2

theorem rowWidth_headerCells (header : List String) :
    rowWidth (headerCells header) = header.length := by
  rw [rowWidth_eq_of_all_some, length_headerCells]
  intro c hc
  rw [headerCells] at hc
  obtain ⟨k, _, hk⟩ := List.mem_map.mp hc
  rw [← hk]
  simp

theorem rowWidth_le (row : List JsVal) : rowWidth row ≤ row.length :=
  Nat.sub_le _ _

theorem foldr_rowWidth_le (n : Nat) : ∀ (rows : Grid), (∀ row ∈ rows, row.length ≤ n) →
    rows.foldr (fun row acc => max (rowWidth row) acc) 0 ≤ n := by
  intro rows
  induction rows with
  | nil => intro _; simp
  | cons r t ih =>
    intro hw
    rw [List.foldr_cons]
    exact Nat.max_le.mpr
      ⟨Nat.le_trans (rowWidth_le r) (hw r (List.mem_cons_self _ _)),
       ih (fun row hrow => hw row (List.mem_cons_of_mem _ hrow))⟩

theorem getLastColumn_cons_eq (header : List String) (rows : Grid)
    (hw : ∀ row ∈ rows, row.length ≤ header.length) :
    getLastColumn (headerCells header :: rows) = header.length := by
  rw [getLastColumn, List.foldr_cons, rowWidth_headerCells]
  exact Nat.max_eq_left (foldr_rowWidth_le header.length rows hw)

theorem getLastRow_eq_of_last (g : Grid) (row : List JsVal) (hg : g.getLast? = some row)
    (hb : isBlankRow row = false) : getLastRow g = g.length := by
  cases hrev : g.reverse with
  | nil =>
    have : g = [] := by simpa using congrArg List.reverse hrev
    rw [this] at hg
    exact Option.noConfusion hg
  | cons r t =>
    have hr : g.getLast? = some r := by
      rw [← List.head?_reverse, hrev]
      rfl
    have hrow : r = row := by
      rw [hr] at hg
      injection hg
    rw [getLastRow, hrev]
    have hpred : isBlankRow r = false := by
      rw [hrow]
      exact hb
    simp [List.takeWhile_cons, hpred]

theorem map_keyToString_headerCells (header : List String) :
    (headerCells header).map keyToString = header := by
  rw [headerCells, List.map_map]
  have h1 : (keyToString ∘ fun k => some (Value.str k)) = id := by
    funext k
    rfl
  rw [h1, List.map_id]

theorem rawDecoderGo_not_mem : ∀ (keys vs : List JsVal) (r : Rec) (k : String),
    k ∉ keys.map keyToString → rawDecoderGo r keys vs k = r k := by
  intro keys
  induction keys with
  | nil =>
    intro vs r k _
    cases vs <;> rfl
  | cons key keys ih =>
    intro vs r k hk
    rw [List.map_cons, List.mem_cons] at hk
    push_neg at hk
    obtain ⟨h1, h2⟩ := hk
    cases vs with
    | nil =>
      rw [rawDecoderGo, ih [] _ k h2]
      simp [assignField, h1]
    | cons v vs2 =>
      rw [rawDecoderGo, ih vs2 _ k h2]
      simp [assignField, h1]

theorem decoded_support (header : List String) (vals : List JsVal) (k : String)
    (hk : k ∉ header) : _rawDecoder (headerCells header) vals k = none := by
  rw [_rawDecoder, rawDecoderGo_not_mem]
  · rfl
  · rw [map_keyToString_headerCells]
    exact hk

theorem decodeSheet_cons_eq (header : List String) (rows : Grid)
    (hw : ∀ row ∈ rows, row.length ≤ header.length)
    (hlast : getLastRow (headerCells header :: rows) = rows.length + 1) :
    decodeSheet (headerCells header :: rows)
      = rows.map (fun row => _rawDecoder (headerCells header) (padCols row header.length)) := by
  rw [decodeSheet, hlast, getLastColumn_cons_eq header rows hw,
    show rows.length + 1 = (headerCells header :: rows).length by simp,
    getValuesRect_len, List.map_cons]
  have hpad : padCols (headerCells header) header.length = headerCells header := by
    have h2 := padCols_self (headerCells header)
    rw [length_headerCells] at h2
    exact h2
  rw [hpad, decodeRangeWith, List.map_map]
  rfl

theorem decodeRow_encodeRow (header : List String) (e : Rec) :
    _rawDecoder (headerCells header) (padCols (encodeRow header e) header.length)
      = restrictRec e header := by
  have hlen : (encodeRow header e).length = header.length := by simp [encodeRow]
  have h2 := padCols_self (encodeRow header e)
  rw [hlen] at h2
  rw [h2, rawDecoder_encodeRow]

/-! ## Idempotence development: run-1 decomposition -/

theorem writeRow_full (old new : List JsVal) (h : old.length ≤ new.length) :
    writeRow old new = new := by
  rw [writeRow, List.drop_eq_nil_of_le h, List.append_nil]

theorem setValues1_cons_set (hdr : List JsVal) (rs : Grid) (j : Nat) (v : List JsVal)
    (hj : j < rs.length) (hlen : (rs.getD j []).length ≤ v.length) :
    setValues1 (hdr :: rs) (j + 2) [v] = hdr :: rs.set j v := by
  rw [setValues1, show j + 2 - 1 = j + 1 from rfl]
  rw [show setRowsAt (hdr :: rs) (j + 1) [v] = setRowAt (hdr :: rs) (j + 1) v from rfl]
  rw [setRowAt]
  have hpad : padRows (hdr :: rs) (j + 1 + 1) = hdr :: rs := by
    apply padRows_of_le
    simp
    omega
  simp only [hpad]
  rw [show (hdr :: rs).getD (j + 1) [] = rs.getD j [] from rfl, writeRow_full _ _ hlen]
  simp [List.set]

theorem enumFrom_filter_none {Id : Type} [DecidableEq Id] (toKey : Rec → Id) (upd : Rec) :
    ∀ (l : List Rec) (n : Nat), firstMatchIdx toKey upd l = none →
      (List.enumFrom n l).filter (fun p => decide (toKey upd = toKey p.2)) = [] := by
  intro l
  induction l with
  | nil => intro n _; rfl
  | cons r rest ih =>
    intro n h
    rw [firstMatchIdx] at h
    by_cases hk : toKey upd = toKey r
    · rw [if_pos hk] at h
      exact Option.noConfusion h
    · rw [if_neg hk] at h
      simp only [List.enumFrom, List.filter_cons]
      rw [if_neg (by simpa using hk)]
      match hrec : firstMatchIdx toKey upd rest with
      | none => exact ih (n + 1) hrec
      | some j2 => rw [hrec] at h; exact Option.noConfusion h

theorem enumFrom_filter_some {Id : Type} [DecidableEq Id] (toKey : Rec → Id) (upd : Rec) :
    ∀ (l : List Rec) (j : Nat) (n : Nat), firstMatchIdx toKey upd l = some j →
      ∃ t, (List.enumFrom n l).filter (fun p => decide (toKey upd = toKey p.2))
        = (n + j, l.getD j emptyRec) :: t := by
  intro l
  induction l with
  | nil => intro j n h; exact Option.noConfusion h
  | cons r rest ih =>
    intro j n h
    rw [firstMatchIdx] at h
    by_cases hk : toKey upd = toKey r
    · rw [if_pos hk] at h
      injection h with h
      subst h
      refine ⟨(List.enumFrom (n + 1) rest).filter (fun p => decide (toKey upd = toKey p.2)), ?_⟩
      simp only [List.enumFrom, List.filter_cons]
      rw [if_pos (by simpa using hk)]
      simp
    · rw [if_neg hk] at h
      match hrec : firstMatchIdx toKey upd rest with
      | none => rw [hrec] at h; exact Option.noConfusion h
      | some j2 =>
        rw [hrec] at h
        injection h with h
        subst h
        obtain ⟨t, ht⟩ := ih j2 (n + 1) hrec
        refine ⟨t, ?_⟩
        simp only [List.enumFrom, List.filter_cons]
        rw [if_neg (by simpa using hk), ht]
        have harith : n + 1 + j2 = n + (j2 + 1) := by omega
        rw [harith]
        rfl

theorem scanRows_false_firstMatch {Id : Type} [DecidableEq Id] (header : List String)
    (toKey : Rec → Id) (upd : Rec) (l : List Rec) (st : SheetState) :
    scanRows header toKey false upd st l.enum
      = match firstMatchIdx toKey upd l with
        | some j =>
          (applyWrite st (j + 2) [encodeRow header (objectAssign (l.getD j emptyRec) upd)],
           true)
        | none => (st, false) := by
  rw [show l.enum = List.enumFrom 0 l from rfl, scanRows_false_eq]
  cases hm : firstMatchIdx toKey upd l with
  | none => rw [enumFrom_filter_none toKey upd l 0 hm]
  | some j =>
    obtain ⟨t, ht⟩ := enumFrom_filter_some toKey upd l j 0 hm
    rw [ht]
    simp

theorem firstOccurrences_key_nodup {α Id : Type} [DecidableEq Id] (toKey : α → Id) :
    ∀ (n : Nat) (l : List α), l.length ≤ n →
      ((firstOccurrences toKey l).map toKey).Nodup := by
  intro n
  induction n with
  | zero =>
    intro l hl
    have h0 : l = [] := List.length_eq_zero.mp (Nat.le_zero.mp hl)
    subst h0
    simp [firstOccurrences]
  | succ n ih =>
    intro l hl
    match l with
    | [] => simp [firstOccurrences]
    | x :: xs =>
      rw [firstOccurrences, List.map_cons]
      apply List.Nodup.cons
      · intro hmem
        obtain ⟨y, hy, hky⟩ := List.mem_map.mp hmem
        have hy2 : y ∈ xs.filter (fun y => decide (toKey y ≠ toKey x)) :=
          (firstOccurrences_sublist toKey _ _ le_rfl).subset hy
        have := (List.mem_filter.mp hy2).2
        simp only [decide_eq_true_eq] at this
        exact this hky
      · exact ih _ (Nat.le_trans (List.length_filter_le _ _) (Nat.le_of_succ_le_succ hl))

theorem dedup_key_nodup {α Id : Type} [DecidableEq Id] (toKey : α → Id) (data : List α) :
    ((dedupByKey toKey data).map toKey).Nodup := by
  rw [dedupByKey_eq]
  exact firstOccurrences_key_nodup toKey data.length data le_rfl

theorem dedup_subset {α Id : Type} [DecidableEq Id] (toKey : α → Id) (data : List α) :
    ∀ u ∈ dedupByKey toKey data, u ∈ data := by
  intro u hu
  rw [dedupByKey_eq] at hu
  exact (firstOccurrences_sublist toKey data.length data le_rfl).subset hu

theorem mergeFold_proj {Id : Type} [DecidableEq Id] (header : List String)
    (toKey : Rec → Id) (prev : List Rec) :
    ∀ (us : List Rec) (s : SheetState) (acc : List Rec),
      ((us.foldl
        (fun (acc2 : SheetState × List Rec) upd =>
          if (scanRows header toKey false upd acc2.1 prev.enum).2
          then ((scanRows header toKey false upd acc2.1 prev.enum).1, acc2.2)
          else ((scanRows header toKey false upd acc2.1 prev.enum).1, acc2.2 ++ [upd]))
        (s, acc)).1.grid
          = us.foldl (mergeGridStep header toKey prev) s.grid)
      ∧ ((us.foldl
        (fun (acc2 : SheetState × List Rec) upd =>
          if (scanRows header toKey false upd acc2.1 prev.enum).2
          then ((scanRows header toKey false upd acc2.1 prev.enum).1, acc2.2)
          else ((scanRows header toKey false upd acc2.1 prev.enum).1, acc2.2 ++ [upd]))
        (s, acc)).2
          = acc ++ us.filter (fun u => (firstMatchIdx toKey u prev).isNone)) := by
  intro us
  induction us with
  | nil => intro s acc; exact ⟨rfl, by simp⟩
  | cons u us ih =>
    intro s acc
    rw [List.foldl_cons, List.foldl_cons, List.filter_cons]
    cases hm : firstMatchIdx toKey u prev with
    | some j =>
      rw [scanRows_false_firstMatch header toKey u prev s, hm]
      simp only [if_pos]
      have hstep : mergeGridStep header toKey prev s.grid u
          = (applyWrite s (j + 2)
              [encodeRow header (objectAssign (prev.getD j emptyRec) u)]).grid := by
        rw [mergeGridStep, hm]
        rfl
      rw [hstep]
      simp only [Option.isNone_some, Bool.false_eq_true, if_false]
      exact ih _ acc
    | none =>
      rw [scanRows_false_firstMatch header toKey u prev s, hm]
      simp only [Bool.false_eq_true, if_false]
      have hstep : mergeGridStep header toKey prev s.grid u = s.grid := by
        rw [mergeGridStep, hm]
      rw [hstep]
      simp only [Option.isNone_none, if_true]
      obtain ⟨h1, h2⟩ := ih s (acc ++ [u])
      exact ⟨h1, by rw [h2]; simp⟩

theorem updateOrInsertBy_grid_decomp {Id : Type} [DecidableEq Id] (st : SheetState)
    (header : List String) (data : List Rec) (toKey : Rec → Id) (hne : data.length ≠ 0) :
    (updateOrInsertBy st header data toKey false).grid
      = (if ((dedupByKey toKey data).filter
            (fun u => (firstMatchIdx toKey u (decodeSheet st.grid)).isNone)).length = 0
        then (dedupByKey toKey data).foldl
          (mergeGridStep header toKey (decodeSheet st.grid)) st.grid
        else
          setValues1
            ((dedupByKey toKey data).foldl
              (mergeGridStep header toKey (decodeSheet st.grid)) st.grid)
            (getLastRow ((dedupByKey toKey data).foldl
              (mergeGridStep header toKey (decodeSheet st.grid)) st.grid) + 1)
            (((dedupByKey toKey data).filter
              (fun u => (firstMatchIdx toKey u (decodeSheet st.grid)).isNone)).map
              (fun entry => encodeRow header entry))) := by
  rw [updateOrInsertBy, if_neg hne]
  simp only
  obtain ⟨h1, h2⟩ := mergeFold_proj header toKey (decodeSheet st.grid)
    (dedupByKey toKey data) st []
  rw [h2]
  simp only [List.nil_append]
  by_cases hq : ((dedupByKey toKey data).filter
      (fun u => (firstMatchIdx toKey u (decodeSheet st.grid)).isNone)).length = 0
  · rw [if_neg (by simp [hq]), if_pos hq]
    exact h1
  · rw [if_pos hq, if_neg hq, append, if_neg hq, applyWrite]
    simp only
    rw [h1]

theorem mergeRowsFold_length {Id : Type} [DecidableEq Id] (header : List String)
    (toKey : Rec → Id) (prevData : List Rec) :
    ∀ (us : List Rec) (rs : Grid),
      (us.foldl (mergeRowsStep header toKey prevData) rs).length = rs.length := by
  intro us
  induction us with
  | nil => intro rs; rfl
  | cons u us ih =>
    intro rs
    rw [List.foldl_cons, ih]
    rw [mergeRowsStep]
    cases firstMatchIdx toKey u prevData with
    | some j => simp
    | none => rfl

theorem mergeRowsFold_width {Id : Type} [DecidableEq Id] (header : List String)
    (toKey : Rec → Id) (prevData : List Rec) :
    ∀ (us : List Rec) (rs : Grid), (∀ row ∈ rs, row.length ≤ header.length) →
      ∀ row ∈ us.foldl (mergeRowsStep header toKey prevData) rs,
        row.length ≤ header.length := by
  intro us
  induction us with
  | nil => intro rs h; exact h
  | cons u us ih =>
    intro rs h
    rw [List.foldl_cons]
    apply ih
    intro row hrow
    cases hm : firstMatchIdx toKey u prevData with
    | some j =>
      rw [mergeRowsStep, hm] at hrow
      rcases List.mem_or_eq_of_mem_set hrow with hrow | hrow
      · exact h row hrow
      · rw [hrow]
        simp [encodeRow]
    | none =>
      rw [mergeRowsStep, hm] at hrow
      exact h row hrow

theorem mergeGridFold_cons {Id : Type} [DecidableEq Id] (header : List String)
    (toKey : Rec → Id) (prevData : List Rec) :
    ∀ (us : List Rec) (rs : Grid), (∀ row ∈ rs, row.length ≤ header.length) →
      rs.length = prevData.length →
      us.foldl (mergeGridStep header toKey prevData) (headerCells header :: rs)
        = headerCells header :: us.foldl (mergeRowsStep header toKey prevData) rs := by
  intro us
  induction us with
  | nil => intro rs _ _; rfl
  | cons u us ih =>
    intro rs hw hlen
    rw [List.foldl_cons, List.foldl_cons]
    cases hm : firstMatchIdx toKey u prevData with
    | none =>
      rw [show mergeGridStep header toKey prevData (headerCells header :: rs) u
          = headerCells header :: rs by rw [mergeGridStep, hm],
        show mergeRowsStep header toKey prevData rs u = rs by rw [mergeRowsStep, hm]]
      exact ih rs hw hlen
    | some j =>
      have hj : j < rs.length := by
        rw [hlen]
        exact firstMatchIdx_lt_length toKey u prevData j hm
      have hgd : (rs.getD j []).length ≤ header.length := by
        exact hw _ (getD_mem rs j [] hj)
      rw [show mergeGridStep header toKey prevData (headerCells header :: rs) u
          = setValues1 (headerCells header :: rs) (j + 2)
            [encodeRow header (objectAssign (prevData.getD j emptyRec) u)]
          by rw [mergeGridStep, hm],
        show mergeRowsStep header toKey prevData rs u
          = rs.set j (encodeRow header (objectAssign (prevData.getD j emptyRec) u))
          by rw [mergeRowsStep, hm]]
      have hlen2 : (encodeRow header
          (objectAssign (prevData.getD j emptyRec) u)).length = header.length := by
        simp [encodeRow]
      rw [setValues1_cons_set _ _ _ _ hj (by rw [hlen2]; exact hgd)]
      apply ih
      · intro row hrow
        rcases List.mem_or_eq_of_mem_set hrow with hrow | hrow
        · exact hw row hrow
        · rw [hrow]
          simp [encodeRow]
      · simpa using hlen

theorem mergeRowsFold_getD_unchanged {Id : Type} [DecidableEq Id] (header : List String)
    (toKey : Rec → Id) (prevData : List Rec) :
    ∀ (us : List Rec) (rs : Grid) (p : Nat),
      (∀ u ∈ us, firstMatchIdx toKey u prevData ≠ some p) →
      (us.foldl (mergeRowsStep header toKey prevData) rs).getD p [] = rs.getD p [] := by
  intro us
  induction us with
  | nil => intro rs p _; rfl
  | cons u us ih =>
    intro rs p h
    rw [List.foldl_cons, ih _ _ (fun v hv => h v (List.mem_cons_of_mem _ hv))]
    rw [mergeRowsStep]
    cases hm : firstMatchIdx toKey u prevData with
    | none => rfl
    | some j =>
      have hjp : j ≠ p := by
        intro hc
        exact h u (List.mem_cons_self _ _) (by rw [hm, hc])
      exact getD_set_ne _ _ _ _ _ hjp

theorem mergeRowsFold_getD_set {Id : Type} [DecidableEq Id] (header : List String)
    (toKey : Rec → Id) (prevData : List Rec) :
    ∀ (us : List Rec) (rs : Grid) (p : Nat) (v : List JsVal),
      (∀ u ∈ us, firstMatchIdx toKey u prevData = some p →
        encodeRow header (objectAssign (prevData.getD p emptyRec) u) = v) →
      (∃ u ∈ us, firstMatchIdx toKey u prevData = some p) →
      p < rs.length →
      (us.foldl (mergeRowsStep header toKey prevData) rs).getD p [] = v := by
  intro us
  induction us with
  | nil =>
    intro rs p v _ hex _
    obtain ⟨u, hu, _⟩ := hex
    exact absurd hu (List.not_mem_nil u)
  | cons u us ih =>
    intro rs p v hval hex hp
    rw [List.foldl_cons]
    by_cases hm : firstMatchIdx toKey u prevData = some p
    · have hstep : mergeRowsStep header toKey prevData rs u = rs.set p v := by
        have h3 : mergeRowsStep header toKey prevData rs u
            = rs.set p (encodeRow header (objectAssign (prevData.getD p emptyRec) u)) := by
          rw [mergeRowsStep, hm]
        rw [h3, hval u (List.mem_cons_self _ _) hm]
      rw [hstep]
      by_cases hex2 : ∃ u2 ∈ us, firstMatchIdx toKey u2 prevData = some p
      · exact ih _ p v (fun u2 hu2 => hval u2 (List.mem_cons_of_mem _ hu2)) hex2
          (by simpa using hp)
      · push_neg at hex2
        rw [mergeRowsFold_getD_unchanged header toKey prevData us _ p hex2]
        exact getD_set_self rs p v [] hp
    · have hex2 : ∃ u2 ∈ us, firstMatchIdx toKey u2 prevData = some p := by
        obtain ⟨u2, hu2, hm2⟩ := hex
        rcases List.mem_cons.mp hu2 with h | h
        · exact absurd (h ▸ hm2) hm
        · exact ⟨u2, h, hm2⟩
      cases hm2 : firstMatchIdx toKey u prevData with
      | none =>
        have hstep : mergeRowsStep header toKey prevData rs u = rs := by
          rw [mergeRowsStep, hm2]
        rw [hstep]
        exact ih rs p v (fun u2 hu2 => hval u2 (List.mem_cons_of_mem _ hu2)) hex2 hp
      | some j =>
        have hstep : mergeRowsStep header toKey prevData rs u
            = rs.set j (encodeRow header (objectAssign (prevData.getD j emptyRec) u)) := by
          rw [mergeRowsStep, hm2]
        rw [hstep]
        exact ih _ p v (fun u2 hu2 => hval u2 (List.mem_cons_of_mem _ hu2)) hex2
          (by simpa using hp)

theorem set_beyond {α : Type} :
    ∀ (l : List α) (n : Nat) (v : α), l.length ≤ n → l.set n v = l := by
  intro l
  induction l with
  | nil => intro n v _; rfl
  | cons x t ih =>
    intro n v h
    match n with
    | 0 => simp at h
    | n + 1 =>
      simp only [List.set]
      rw [ih n v (by simpa using h)]

theorem mergeRowsFold_getD_cases {Id : Type} [DecidableEq Id] (header : List String)
    (toKey : Rec → Id) (prevData : List Rec) :
    ∀ (us : List Rec) (rs : Grid) (p : Nat),
      (us.foldl (mergeRowsStep header toKey prevData) rs).getD p [] = rs.getD p []
      ∨ ∃ u ∈ us, ∃ j, (us.foldl (mergeRowsStep header toKey prevData) rs).getD p []
          = encodeRow header (objectAssign (prevData.getD j emptyRec) u) := by
  intro us
  induction us with
  | nil => intro rs p; exact Or.inl rfl
  | cons u us ih =>
    intro rs p
    rw [List.foldl_cons]
    cases hm : firstMatchIdx toKey u prevData with
    | none =>
      have hstep : mergeRowsStep header toKey prevData rs u = rs := by
        rw [mergeRowsStep, hm]
      rw [hstep]
      rcases ih rs p with h | ⟨u2, hu2, j, hj⟩
      · exact Or.inl h
      · exact Or.inr ⟨u2, List.mem_cons_of_mem _ hu2, j, hj⟩
    | some j =>
      have hstep : mergeRowsStep header toKey prevData rs u
          = rs.set j (encodeRow header (objectAssign (prevData.getD j emptyRec) u)) := by
        rw [mergeRowsStep, hm]
      rw [hstep]
      rcases ih (rs.set j (encodeRow header (objectAssign (prevData.getD j emptyRec) u))) p
        with h | ⟨u2, hu2, j2, hj2⟩
      · rw [h]
        by_cases hjp : j = p
        · subst hjp
          by_cases hjlen : j < rs.length
          · exact Or.inr ⟨u, List.mem_cons_self _ _, j, getD_set_self rs j _ [] hjlen⟩
          · rw [set_beyond rs j _ (by omega)]
            exact Or.inl rfl
        · rw [getD_set_ne _ _ _ _ _ hjp]
          exact Or.inl rfl
      · exact Or.inr ⟨u2, List.mem_cons_of_mem _ hu2, j2, hj2⟩

/-! ## Idempotence development: blankness and last-row lemmas -/

theorem objectAssign_ne_none (r u : Rec) (k : String) (h : u k ≠ none) :
    objectAssign r u k ≠ none := by
  match hk : u k with
  | some v =>
    have : objectAssign r u k = some v := by
      show (match u k with | some v => some v | none => r k) = some v
      rw [hk]
    rw [this]
    simp
  | none => exact absurd hk h

theorem isBlankRow_encodeRow (header : List String) (e : Rec) (k : String)
    (hk : k ∈ header) (he : e k ≠ none) : isBlankRow (encodeRow header e) = false := by
  by_contra hb
  rw [Bool.not_eq_false] at hb
  rw [isBlankRow] at hb
  have hmem : e k ∈ encodeRow header e := by
    rw [encodeRow]
    exact List.mem_map.mpr ⟨k, hk, rfl⟩
  have := List.all_eq_true.mp hb _ hmem
  simp only [decide_eq_true_eq] at this
  exact he this

theorem isBlankRow_headerCells (header : List String) (h : header ≠ []) :
    isBlankRow (headerCells header) = false := by
  match header with
  | [] => exact absurd rfl h
  | k :: t =>
    by_contra hb
    rw [Bool.not_eq_false] at hb
    rw [isBlankRow] at hb
    have hmem : some (Value.str k) ∈ headerCells (k :: t) := by
      rw [headerCells]
      exact List.mem_map.mpr ⟨k, List.mem_cons_self _ _, rfl⟩
    have := List.all_eq_true.mp hb _ hmem
    simp at this

theorem last_nonblank_of_getLastRow (g : Grid) (row : List JsVal)
    (hlast : getLastRow g = g.length) (hg : g.getLast? = some row) :
    isBlankRow row = false := by
  by_contra hb
  rw [Bool.not_eq_false] at hb
  cases hrev : g.reverse with
  | nil =>
    have hnil : g = [] := by simpa using congrArg List.reverse hrev
    rw [hnil] at hg
    exact Option.noConfusion hg
  | cons r t =>
    have hr : g.getLast? = some r := by
      rw [← List.head?_reverse, hrev]
      rfl
    have hrow : r = row := by
      rw [hr] at hg
      injection hg
    have hlen : g.length = t.length + 1 := by
      rw [← List.length_reverse, hrev]
      rfl
    have hblank : isBlankRow r = true := by
      rw [hrow]
      exact hb
    rw [getLastRow, hrev] at hlast
    rw [List.takeWhile_cons] at hlast
    simp only [hblank, if_true] at hlast
    have hle : (t.takeWhile (fun row => isBlankRow row)).length ≤ t.length :=
      List.length_le_of_sublist (List.takeWhile_sublist _)
    rw [List.length_cons] at hlast
    omega

theorem getLastRow_cons_eq_len (x : List JsVal) (rs : Grid)
    (h1 : rs = [] → isBlankRow x = false)
    (h2 : ∀ row, rs.getLast? = some row → isBlankRow row = false) :
    getLastRow (x :: rs) = rs.length + 1 := by
  match rs with
  | [] =>
    exact getLastRow_eq_of_last [x] x rfl (h1 rfl)
  | y :: t =>
    have hlp : (x :: y :: t).getLast? = (y :: t).getLast? := List.getLast?_cons_cons
    have hget := getLast?_eq_getD (y :: t) [] (by simp)
    have hnb := h2 _ hget
    have := getLastRow_eq_of_last (x :: y :: t) _ (by rw [hlp]; exact hget) hnb
    rw [this]
    simp

theorem rows_last_nonblank_of (header : List String) (rows : Grid)
    (hlast : getLastRow (headerCells header :: rows) = rows.length + 1) :
    ∀ row, rows.getLast? = some row → isBlankRow row = false := by
  intro row hrow
  have hne : rows ≠ [] := by
    intro hnil
    rw [hnil] at hrow
    exact Option.noConfusion hrow
  have hlp : (headerCells header :: rows).getLast? = rows.getLast? := by
    match rows, hne with
    | y :: t, _ => exact List.getLast?_cons_cons
  apply last_nonblank_of_getLastRow (headerCells header :: rows) row
  · rw [hlast]
    simp
  · rw [hlp]
    exact hrow

theorem mergeRowsFold_last_nonblank {Id : Type} [DecidableEq Id] (header : List String)
    (toKey : Rec → Id) (prevData : List Rec) (us : List Rec) (rows : Grid)
    (hlast_rows : ∀ row, rows.getLast? = some row → isBlankRow row = false)
    (hnb : ∀ u ∈ us, ∃ k ∈ header, u k ≠ none) :
    ∀ row, (us.foldl (mergeRowsStep header toKey prevData) rows).getLast? = some row →
      isBlankRow row = false := by
  intro row hrow
  have hlen := mergeRowsFold_length header toKey prevData us rows
  have hne : us.foldl (mergeRowsStep header toKey prevData) rows ≠ [] := by
    intro hnil
    rw [hnil] at hrow
    exact Option.noConfusion hrow
  have hne2 : rows ≠ [] := by
    intro hnil
    apply hne
    rw [← List.length_eq_zero, hlen, hnil]
    rfl
  have hget := getLast?_eq_getD (us.foldl (mergeRowsStep header toKey prevData) rows) [] hne
  rw [hrow] at hget
  injection hget with hget
  rcases mergeRowsFold_getD_cases header toKey prevData us rows
      ((us.foldl (mergeRowsStep header toKey prevData) rows).length - 1) with h | h
  · rw [hget, h, hlen]
    apply hlast_rows
    have hg2 := getLast?_eq_getD rows [] hne2
    rw [hg2]
  · obtain ⟨u, hu, j, hj⟩ := h
    rw [hget, hj]
    obtain ⟨k, hk, huk⟩ := hnb u hu
    exact isBlankRow_encodeRow header _ k hk
      (objectAssign_ne_none (prevData.getD j emptyRec) u k huk)

theorem nodup_map_inj {α Id : Type} (f : α → Id) :
    ∀ (l : List α), (l.map f).Nodup → ∀ x ∈ l, ∀ y ∈ l, f x = f y → x = y := by
  intro l
  induction l with
  | nil => intro _ x hx; exact absurd hx (List.not_mem_nil x)
  | cons a t ih =>
    intro hnd x hx y hy hf
    rw [List.map_cons] at hnd
    have hnd2 := List.nodup_cons.mp hnd
    rcases List.mem_cons.mp hx with hx | hx <;> rcases List.mem_cons.mp hy with hy | hy
    · rw [hx, hy]
    · exfalso
      apply hnd2.1
      rw [← hx, hf]
      exact List.mem_map.mpr ⟨y, hy, rfl⟩
    · exfalso
      apply hnd2.1
      rw [← hy, ← hf]
      exact List.mem_map.mpr ⟨x, hx, rfl⟩
    · exact ih hnd2.2 x hx y hy hf

theorem run1_shape {Id : Type} [DecidableEq Id] (st : SheetState) (header : List String)
    (rows : Grid) (data : List Rec) (toKey : Rec → Id)
    (hgrid : st.grid = headerCells header :: rows)
    (hwidth : ∀ row ∈ rows, row.length ≤ header.length)
    (hlast : getLastRow (headerCells header :: rows) = rows.length + 1)
    (hne : data.length ≠ 0)
    (hnonblank : ∀ u ∈ data, ∃ k ∈ header, u k ≠ none) :
    (updateOrInsertBy st header data toKey false).grid
      = headerCells header ::
        ((dedupByKey toKey data).foldl
            (mergeRowsStep header toKey (decodeSheet st.grid)) rows
          ++ ((dedupByKey toKey data).filter
              (fun u => (firstMatchIdx toKey u (decodeSheet st.grid)).isNone)).map
              (fun entry => encodeRow header entry)) := by
  have hdec : decodeSheet st.grid
      = rows.map (fun row => _rawDecoder (headerCells header) (padCols row header.length)) := by
    rw [hgrid]
    exact decodeSheet_cons_eq header rows hwidth hlast
  have hlrows : rows.length = (decodeSheet st.grid).length := by
    rw [hdec]
    simp
  have hconsfold : (dedupByKey toKey data).foldl
      (mergeGridStep header toKey (decodeSheet st.grid)) st.grid
      = headerCells header :: (dedupByKey toKey data).foldl
          (mergeRowsStep header toKey (decodeSheet st.grid)) rows := by
    have h := mergeGridFold_cons header toKey (decodeSheet st.grid)
      (dedupByKey toKey data) rows hwidth hlrows
    rw [← hgrid] at h
    exact h
  rw [updateOrInsertBy_grid_decomp st header data toKey hne]
  by_cases hq : (((dedupByKey toKey data).filter
      (fun u => (firstMatchIdx toKey u (decodeSheet st.grid)).isNone))).length = 0
  · rw [if_pos hq, hconsfold, List.length_eq_zero.mp hq]
    simp
  · rw [if_neg hq, hconsfold]
    have hnb2 : ∀ u ∈ dedupByKey toKey data, ∃ k ∈ header, u k ≠ none :=
      fun u hu => hnonblank u (dedup_subset toKey data u hu)
    have hhne : header ≠ [] := by
      match data, hne with
      | u :: _, _ =>
        obtain ⟨k, hk, _⟩ := hnonblank u (List.mem_cons_self _ _)
        intro hh
        rw [hh] at hk
        exact absurd hk (List.not_mem_nil k)
    have hlastF := mergeRowsFold_last_nonblank header toKey (decodeSheet st.grid)
      (dedupByKey toKey data) rows (rows_last_nonblank_of header rows hlast) hnb2
    have hLR : getLastRow (headerCells header :: (dedupByKey toKey data).foldl
        (mergeRowsStep header toKey (decodeSheet st.grid)) rows)
        = ((dedupByKey toKey data).foldl
            (mergeRowsStep header toKey (decodeSheet st.grid)) rows).length + 1 := by
      apply getLastRow_cons_eq_len
      · intro _
        exact isBlankRow_headerCells header hhne
      · exact hlastF
    rw [hLR, setValues1,
      show ((dedupByKey toKey data).foldl
          (mergeRowsStep header toKey (decodeSheet st.grid)) rows).length + 1 + 1 - 1
        = ((dedupByKey toKey data).foldl
            (mergeRowsStep header toKey (decodeSheet st.grid)) rows).length + 1 from rfl,
      setRowsAt_append _ _ _ (by simp)]
    simp

theorem mem_getD {α : Type} :
    ∀ (l : List α) (a : α) (d : α), a ∈ l → ∃ t, t < l.length ∧ l.getD t d = a := by
  intro l
  induction l with
  | nil => intro a d h; exact absurd h (List.not_mem_nil a)
  | cons x t ih =>
    intro a d h
    rcases List.mem_cons.mp h with h | h
    · exact ⟨0, by simp, h.symm⟩
    · obtain ⟨s, hs, hsd⟩ := ih a d h
      exact ⟨s + 1, by simpa using hs, hsd⟩

theorem nodup_map_getD_inj {α Id : Type} (f : α → Id) :
    ∀ (l : List α), (l.map f).Nodup → ∀ (d : α) (s t : Nat), s < l.length → t < l.length →
      f (l.getD s d) = f (l.getD t d) → s = t := by
  intro l
  induction l with
  | nil => intro _ d s t hs _ _; simp at hs
  | cons a rest ih =>
    intro hnd d s t hs ht hf
    rw [List.map_cons] at hnd
    have hnd2 := List.nodup_cons.mp hnd
    match s, t with
    | 0, 0 => rfl
    | 0, t + 1 =>
      exfalso
      apply hnd2.1
      simp only [List.getD_cons_zero, List.getD_cons_succ] at hf
      rw [hf]
      exact List.mem_map.mpr ⟨rest.getD t d, getD_mem rest t d (by simpa using ht), rfl⟩
    | s + 1, 0 =>
      exfalso
      apply hnd2.1
      simp only [List.getD_cons_zero, List.getD_cons_succ] at hf
      rw [← hf]
      exact List.mem_map.mpr ⟨rest.getD s d, getD_mem rest s d (by simpa using hs), rfl⟩
    | s + 1, t + 1 =>
      simp only [List.getD_cons_succ] at hf
      have := ih hnd2.2 d s t (by simpa using hs) (by simpa using ht) hf
      omega

theorem getLast?_append_ne (a b : Grid) (hb : b ≠ []) :
    (a ++ b).getLast? = b.getLast? := by
  have hne2 : a ++ b ≠ [] := by simp [hb]
  have hblen : 1 ≤ b.length := by
    match b, hb with
    | x :: t, _ => simp
  rw [getLast?_eq_getD (a ++ b) [] hne2, getLast?_eq_getD b [] hb,
    List.getD_append_right _ _ _ _ (by simp; omega),
    show (a ++ b).length - 1 - a.length = b.length - 1 from by simp; omega]

theorem idem_match_case {Id : Type} [DecidableEq Id] (header : List String)
    (toKey : Rec → Id) (merged pd pd1 : List Rec) (dataRows1 : Grid) (rowsLen : Nat)
    (hlen_pd : pd.length = rowsLen)
    (hlen_pd1 : pd1.length = dataRows1.length)
    (hlen_d1 : rowsLen ≤ dataRows1.length)
    (hinj : ∀ x ∈ merged, ∀ y ∈ merged, toKey x = toKey y → x = y)
    (hkeyM : ∀ u ∈ merged, ∀ r : Rec, toKey (objectAssign r u) = toKey u)
    (hK1 : ∀ u ∈ merged, ∀ j, firstMatchIdx toKey u pd = some j →
      pd1.getD j emptyRec = objectAssign (pd.getD j emptyRec) u
      ∧ dataRows1.getD j [] = encodeRow header (objectAssign (pd.getD j emptyRec) u))
    (hK2 : ∀ p, p < rowsLen → (∀ u2 ∈ merged, firstMatchIdx toKey u2 pd ≠ some p) →
      pd1.getD p emptyRec = pd.getD p emptyRec)
    (u : Rec) (hu : u ∈ merged) (j : Nat) (hm : firstMatchIdx toKey u pd = some j) :
    firstMatchIdx toKey u pd1 = some j
    ∧ dataRows1.getD j [] = encodeRow header (objectAssign (pd1.getD j emptyRec) u) := by
  have hj : j < rowsLen := by
    rw [← hlen_pd]
    exact firstMatchIdx_lt_length toKey u pd j hm
  constructor
  · apply firstMatchIdx_eq_some_of
    · omega
    · intro p hp
      by_cases hass : ∃ u2 ∈ merged, firstMatchIdx toKey u2 pd = some p
      · obtain ⟨u2, hu2, hm2⟩ := hass
        rw [(hK1 u2 hu2 p hm2).1, hkeyM u2 hu2]
        intro hcon
        have heq : u = u2 := hinj u hu u2 hu2 hcon
        rw [← heq] at hm2
        have := hm.symm.trans hm2
        injection this with this
        omega
      · push_neg at hass
        rw [hK2 p (by omega) hass]
        exact firstMatchIdx_min toKey u pd j hm p hp
    · rw [(hK1 u hu j hm).1, hkeyM u hu]
  · rw [(hK1 u hu j hm).2, (hK1 u hu j hm).1, objectAssign_objectAssign]

theorem idem_append_case {Id : Type} [DecidableEq Id] (header : List String)
    (toKey : Rec → Id) (merged pd pd1 : List Rec) (dataRows1 : Grid) (rowsLen : Nat)
    (q : List Rec)
    (hlen_pd : pd.length = rowsLen)
    (hlen_pd1 : pd1.length = dataRows1.length)
    (hlen_d1 : dataRows1.length = rowsLen + q.length)
    (hinj : ∀ x ∈ merged, ∀ y ∈ merged, toKey x = toKey y → x = y)
    (hkeyM : ∀ u ∈ merged, ∀ r : Rec, toKey (objectAssign r u) = toKey u)
    (hK1 : ∀ u ∈ merged, ∀ j, firstMatchIdx toKey u pd = some j →
      pd1.getD j emptyRec = objectAssign (pd.getD j emptyRec) u
      ∧ dataRows1.getD j [] = encodeRow header (objectAssign (pd.getD j emptyRec) u))
    (hK2 : ∀ p, p < rowsLen → (∀ u2 ∈ merged, firstMatchIdx toKey u2 pd ≠ some p) →
      pd1.getD p emptyRec = pd.getD p emptyRec)
    (hK3 : ∀ t, t < q.length → pd1.getD (rowsLen + t) emptyRec = q.getD t emptyRec
      ∧ dataRows1.getD (rowsLen + t) [] = encodeRow header (q.getD t emptyRec))
    (hqsub : ∀ v ∈ q, v ∈ merged)
    (hqkeys : (q.map toKey).Nodup)
    (u : Rec) (hu : u ∈ merged) (hm : firstMatchIdx toKey u pd = none)
    (t : Nat) (ht : t < q.length) (hqt : q.getD t emptyRec = u) :
    firstMatchIdx toKey u pd1 = some (rowsLen + t)
    ∧ dataRows1.getD (rowsLen + t) []
        = encodeRow header (objectAssign (pd1.getD (rowsLen + t) emptyRec) u) := by
  constructor
  · apply firstMatchIdx_eq_some_of
    · omega
    · intro p hp
      by_cases hplt : p < rowsLen
      · by_cases hass : ∃ u2 ∈ merged, firstMatchIdx toKey u2 pd = some p
        · obtain ⟨u2, hu2, hm2⟩ := hass
          rw [(hK1 u2 hu2 p hm2).1, hkeyM u2 hu2]
          intro hcon
          have heq : u = u2 := hinj u hu u2 hu2 hcon
          rw [← heq] at hm2
          exact Option.noConfusion (hm.symm.trans hm2)
        · push_neg at hass
          rw [hK2 p hplt hass]
          exact firstMatchIdx_none toKey u pd hm p (by omega)
      · have hs : p - rowsLen < t := by omega
        have hslt : p - rowsLen < q.length := by omega
        have hgetp : pd1.getD p emptyRec = q.getD (p - rowsLen) emptyRec := by
          have h3 := (hK3 (p - rowsLen) hslt).1
          rw [show rowsLen + (p - rowsLen) = p from by omega] at h3
          exact h3
        rw [hgetp]
        intro hcon
        have hkeq : toKey (q.getD (p - rowsLen) emptyRec) = toKey (q.getD t emptyRec) := by
          rw [hqt, ← hcon]
        have := nodup_map_getD_inj toKey q hqkeys emptyRec (p - rowsLen) t hslt ht hkeq
        omega
    · rw [(hK3 t ht).1, hqt]
  · rw [(hK3 t ht).2, (hK3 t ht).1, hqt, objectAssign_self]

/-! ## Claim theorems -/

/-- C7: for all record batches `data` and headers `keys`, decoding the grid
produced by header-aligned positional encoding (header row followed by one row
per record with cells taken by key order) via `decodeRangeWith` with the raw
decoder reconstructs records equal to `data` restricted to the keys. -/
theorem decode_encode_roundTrip (header : List String) (data : List Rec) :
    decodeRangeWith (encode header data) _rawDecoder
      = data.map (fun e => restrictRec e header) := by
  show (data.map (fun entry => encodeRow header entry)).map
      (fun row => _rawDecoder (headerCells header) row)
    = data.map (fun e => restrictRec e header)
  rw [List.map_map]
  apply List.map_congr_left
  intro e _
  exact rawDecoder_encodeRow e header

/-- C5: the merge engine's batch de-duplication keeps exactly the first
occurrence of each identifier (first-seen-wins) and the kept elements retain
their original relative order (the result is a sublist of the batch). -/
theorem dedupByKey_firstSeenWins {α Id : Type} [DecidableEq Id] (toKey : α → Id)
    (data : List α) :
    dedupByKey toKey data = firstOccurrences toKey data
      ∧ (dedupByKey toKey data).Sublist data := by
  have h1 : dedupByKey toKey data = firstOccurrences toKey data := by
    rw [dedupByKey, dedupFold_eq]
    simp
  exact ⟨h1, h1 ▸ firstOccurrences_sublist toKey data.length data le_rfl⟩

/-- C9: `append` called with an empty data batch is a no-op: the sheet state
(grid and write log) is returned unchanged, so zero range writes occur. -/
theorem append_empty_batch_noop (st : SheetState) (keys : List String) :
    append st keys ([] : List Rec) = st := by
  simp [append]

/-- C4: mapper construction resolves the workbook by id and the sheet by
name, and fails immediately with the underlying lookup error if either
lookup fails; when both succeed it holds the resolved sheet. -/
theorem mapper_construct_propagates_lookup_errors {Wb Id : Type}
    (svc : SheetService Wb) (init : MapperInit Id) :
    (∀ e, svc.openById init.sheetId = Except.error e →
      Mapper.construct svc init = Except.error e)
    ∧ (∀ wb e, svc.openById init.sheetId = Except.ok wb →
        svc.getSheetByName wb init.sheetName = Except.error e →
        Mapper.construct svc init = Except.error e)
    ∧ (∀ wb sh, svc.openById init.sheetId = Except.ok wb →
        svc.getSheetByName wb init.sheetName = Except.ok sh →
        Mapper.construct svc init = Except.ok ⟨init, sh⟩) := by
  refine ⟨?_, ?_, ?_⟩
  · intro e he
    simp [Mapper.construct, Mapper.openSheet, he, Bind.bind, Except.bind]
  · intro wb e hwb he
    simp [Mapper.construct, Mapper.openSheet, hwb, he, Bind.bind, Except.bind,
      Functor.map, Except.map]
  · intro wb sh hwb hsh
    simp [Mapper.construct, Mapper.openSheet, hwb, hsh, Bind.bind, Except.bind,
      Functor.map, Except.map, pure, Except.pure]

/-- C1: when the decoded existing records contain a match for the incoming
record, `updateOrInsertBy` with duplicate=false performs exactly one write:
it replaces the first matching row, at sheet row index = match index + 2,
with the merged record's header-ordered values, where the merge
(`objectAssign`) is the shallow field union in which incoming fields
override and fields present only in the existing record are preserved;
nothing is appended. -/
theorem updateOrInsertBy_updates_first_match {Id : Type} [DecidableEq Id]
    (st : SheetState) (header : List String) (upd : Rec) (toKey : Rec → Id)
    (i : Nat) (prev : Rec) (rest : List (Nat × Rec))
    (hmatch : (decodeSheet st.grid).enum.filter (fun p => decide (toKey upd = toKey p.2))
        = (i, prev) :: rest) :
    updateOrInsertBy st header [upd] toKey false
      = applyWrite st (i + 2) [encodeRow header (objectAssign prev upd)] := by
  rw [updateOrInsertBy_single_false, hmatch]

/-- Witness for C1, the spec's own example: existing record `id 1, a x, b y`
upserted with the partial record `id 1, a z` rewrites sheet row 2 to
`id 1, a z, b y` — field `b` is preserved, `a` is overridden. -/
theorem updateOrInsertBy_updates_first_match_witness :
    updateOrInsertBy ⟨exGrid1, []⟩ ["id", "a", "b"] [exUpd1] exToId false
      = ⟨[[strv "id", strv "a", strv "b"], [numv 1, strv "z", strv "y"]],
         [⟨2, [[numv 1, strv "z", strv "y"]]⟩]⟩ := by
  have h := updateOrInsertBy_updates_first_match ⟨exGrid1, []⟩ ["id", "a", "b"] exUpd1 exToId
    0 ((decodeSheet exGrid1).getD 0 emptyRec) [] (by rfl)
  rw [h]
  rfl

/-- C3 counterexample: on a sheet with two rows sharing identifier 7 that
differ in their untouched field `b`, `updateOrInsertBy` with duplicate=true
updates both rows but writes two DIFFERENT value rows (each row keeps its own
`b`), so the rows do not receive "the same merged values" as claimed. -/
theorem updateOrInsertBy_duplicate_not_same_values :
    (updateOrInsertBy ⟨exGrid3, []⟩ ["id", "a", "b"] [exUpd3] exToId true).writes
      = [⟨2, [[numv 7, strv "v", strv "m"]]⟩, ⟨3, [[numv 7, strv "v", strv "n"]]⟩]
    ∧ ([[numv 7, strv "v", strv "m"]] : Grid) ≠ [[numv 7, strv "v", strv "n"]] := by
  constructor
  · rfl
  · decide

/-- C3 (amended): with two or more existing rows matching the incoming
record's identifier, `updateOrInsertBy` with duplicate=true updates every
matching row, each row receiving the merge of its own existing record with
the incoming record (so rows differing in untouched fields receive different
values), while duplicate=false updates only the first matching row and stops
scanning. -/
theorem updateOrInsertBy_duplicate_updates_every_match {Id : Type} [DecidableEq Id]
    (st : SheetState) (header : List String) (upd : Rec) (toKey : Rec → Id)
    (i : Nat) (prev : Rec) (rest : List (Nat × Rec))
    (hmatch : (decodeSheet st.grid).enum.filter (fun p => decide (toKey upd = toKey p.2))
        = (i, prev) :: rest)
    (htwo : rest ≠ []) :
    updateOrInsertBy st header [upd] toKey true
      = ((i, prev) :: rest).foldl
          (fun s p => applyWrite s (p.1 + 2) [encodeRow header (objectAssign p.2 upd)]) st
    ∧ updateOrInsertBy st header [upd] toKey false
      = applyWrite st (i + 2) [encodeRow header (objectAssign prev upd)] := by
  constructor
  · rw [updateOrInsertBy_single_eq, scanRows_true_eq, hmatch]
    have hany : (decodeSheet st.grid).enum.any (fun p => decide (toKey upd = toKey p.2))
        = true := by
      rw [List.any_eq_true]
      have : (i, prev) ∈ (decodeSheet st.grid).enum.filter
          (fun p => decide (toKey upd = toKey p.2)) := by
        rw [hmatch]; exact List.mem_cons_self _ _
      obtain ⟨hmem, hpred⟩ := List.mem_filter.mp this
      exact ⟨(i, prev), hmem, hpred⟩
    rw [hany]
    simp
  · rw [updateOrInsertBy_single_false, hmatch]

/-- Witness for C3 (amended), the spec's own example: rows `7,p,m` and
`7,q,n` share identifier 7; duplicate=true rewrites rows 2 AND 3 (with their
respective merges), duplicate=false rewrites only row 2. -/
theorem updateOrInsertBy_duplicate_updates_every_match_witness :
    (updateOrInsertBy ⟨exGrid3, []⟩ ["id", "a", "b"] [exUpd3] exToId true).grid
      = [[strv "id", strv "a", strv "b"],
         [numv 7, strv "v", strv "m"], [numv 7, strv "v", strv "n"]]
    ∧ (updateOrInsertBy ⟨exGrid3, []⟩ ["id", "a", "b"] [exUpd3] exToId false).grid
      = [[strv "id", strv "a", strv "b"],
         [numv 7, strv "v", strv "m"], [numv 7, strv "q", strv "n"]] := by
  have h := updateOrInsertBy_duplicate_updates_every_match ⟨exGrid3, []⟩ ["id", "a", "b"]
    exUpd3 exToId 0 ((decodeSheet exGrid3).getD 0 emptyRec)
    [(1, (decodeSheet exGrid3).getD 1 emptyRec)] (by rfl) (List.cons_ne_nil _ _)
  constructor
  · rw [h.1]; rfl
  · rw [h.2]; rfl

/-- C6: when no incoming record's identifier matches any decoded existing
record, every de-duplicated incoming record is queued and then appended in a
single batched write (keys = header) starting at row `lastRow + 1`: the
result is exactly one extra logged write holding all queued rows. -/
theorem updateOrInsertBy_appends_unmatched {Id : Type} [DecidableEq Id]
    (st : SheetState) (header : List String) (data : List Rec) (toKey : Rec → Id)
    (hne : data ≠ [])
    (hnomatch : ∀ u ∈ data, ∀ prev ∈ decodeSheet st.grid, toKey u ≠ toKey prev) :
    updateOrInsertBy st header data toKey false
      = applyWrite st (getLastRow st.grid + 1)
          ((dedupByKey toKey data).map (fun entry => encodeRow header entry)) := by
  have hscan : ∀ u ∈ dedupByKey toKey data, ∀ (s : SheetState),
      scanRows header toKey false u s (decodeSheet st.grid).enum = (s, false) := by
    intro u hu s
    rw [scanRows_false_eq]
    have hfil : (decodeSheet st.grid).enum.filter
        (fun p => decide (toKey u = toKey p.2)) = [] := by
      apply List.filter_eq_nil_iff.mpr
      intro p hp
      have hu2 : u ∈ data :=
        ((dedupByKey_eq toKey data ▸ firstOccurrences_sublist toKey data.length data
          le_rfl : (dedupByKey toKey data).Sublist data).subset) hu
      have hp2 : p.2 ∈ decodeSheet st.grid :=
        snd_mem_of_mem_enumFrom (decodeSheet st.grid) 0 p hp
      simpa using hnomatch u hu2 p.2 hp2
    rw [hfil]
  have hfold : ∀ (us : List Rec),
      (∀ u ∈ us, ∀ (s : SheetState),
        scanRows header toKey false u s (decodeSheet st.grid).enum = (s, false)) →
      ∀ (s : SheetState) (acc : List Rec),
      us.foldl
        (fun (acc2 : SheetState × List Rec) upd =>
          if (scanRows header toKey false upd acc2.1 (decodeSheet st.grid).enum).2
          then ((scanRows header toKey false upd acc2.1 (decodeSheet st.grid).enum).1, acc2.2)
          else ((scanRows header toKey false upd acc2.1 (decodeSheet st.grid).enum).1,
            acc2.2 ++ [upd]))
        (s, acc)
      = (s, acc ++ us) := by
    intro us
    induction us with
    | nil => intro _ s acc; simp
    | cons u us ih =>
      intro h s acc
      rw [List.foldl_cons, h u (List.mem_cons_self _ _) s]
      have hred : (if (false = true) then (s, acc)
          else (s, acc ++ [u])) = (s, acc ++ [u]) := by simp
      rw [hred, ih (fun v hv => h v (List.mem_cons_of_mem _ hv)) s (acc ++ [u])]
      simp
  rw [updateOrInsertBy]
  rw [if_neg (by simpa using hne)]
  simp only
  rw [hfold (dedupByKey toKey data) hscan st []]
  have hmne : dedupByKey toKey data ≠ [] := by
    rw [dedupByKey_eq]
    match data, hne with
    | x :: xs, _ => rw [firstOccurrences]; exact List.cons_ne_nil _ _
  rw [if_pos (by simpa using hmne), append,
    if_neg (by simpa using hmne)]
  simp

/-- Witness for C6, the spec's own example: upserting `id 5, a new` into a
sheet with only a header row appends exactly one row via exactly one logged
write at row 2. -/
theorem updateOrInsertBy_appends_unmatched_witness :
    updateOrInsertBy ⟨exGrid6, []⟩ ["id", "a"] [exUpd6] exToId false
      = ⟨[[strv "id", strv "a"], [numv 5, strv "new"]],
         [⟨2, [[numv 5, strv "new"]]⟩]⟩ := by
  have h := updateOrInsertBy_appends_unmatched ⟨exGrid6, []⟩ ["id", "a"] [exUpd6] exToId
    (List.cons_ne_nil _ _)
    (by
      intro u hu prev hprev
      rw [show decodeSheet exGrid6 = [] from rfl] at hprev
      exact absurd hprev (List.not_mem_nil prev))
  rw [h]
  rfl

/-- C8: `deleteBy` reads all records, removes exactly those for which the
predicate is true, and fully overwrites the sheet: the resulting grid is the
bound persisted-keys header row followed by the remaining records' rows in
their original relative order, via one full-table rewrite starting at row 1
(the hypothesis says the sheet has no trailing blank rows). -/
theorem mapper_deleteBy_overwrites {Id : Type} (m : Mapper Id) (pred : Rec → Bool)
    (hlast : getLastRow m.sheet.grid = m.sheet.grid.length) :
    (Mapper.deleteBy m pred).sheet
      = ⟨headerCells m.init.keys ::
           ((decodeSheet m.sheet.grid).filter (fun item => !pred item)).map
             (fun item => encodeRow m.init.keys item),
         m.sheet.writes ++ [⟨1, headerCells m.init.keys ::
           ((decodeSheet m.sheet.grid).filter (fun item => !pred item)).map
             (fun item => encodeRow m.init.keys item)⟩]⟩ := by
  show overwrite m.sheet m.init.keys ((Mapper.readAll m).filter (fun item => !pred item)) = _
  rw [overwrite_eq m.sheet m.init.keys _ hlast]
  rfl

/-- Witness for C8, the spec's own example: `deleteBy` with the predicate
`id = 2` on records `id 1`, `id 2`, `id 3` leaves exactly `id 1` and `id 3`
in order, header preserved, via one overwrite. -/
theorem mapper_deleteBy_overwrites_witness :
    getLastRow exMapper8.sheet.grid = exMapper8.sheet.grid.length
    ∧ (Mapper.deleteBy exMapper8 exPred8).sheet
      = ⟨[[strv "id"], [numv 1], [numv 3]],
         [⟨1, [[strv "id"], [numv 1], [numv 3]]⟩]⟩ := by
  refine ⟨by decide, ?_⟩
  rw [mapper_deleteBy_overwrites exMapper8 exPred8 (by decide)]
  rfl

/-- The invariant maintained over the merge engine's operations: every
logged write is an original one or targets a row at index 2 or later, and
row 1 of the grid is unchanged. -/
def HeaderFrame (orig : SheetState) (s : SheetState) : Prop :=
  (∀ op ∈ s.writes, op ∈ orig.writes ∨ 2 ≤ op.row)
    ∧ s.grid.getD 0 [] = orig.grid.getD 0 []

theorem headerFrame_refl (orig : SheetState) : HeaderFrame orig orig :=
  ⟨fun op hop => Or.inl hop, rfl⟩

theorem headerFrame_applyWrite (orig s : SheetState) (row : Nat) (vals : Grid)
    (hf : HeaderFrame orig s) (hrow : 2 ≤ row) :
    HeaderFrame orig (applyWrite s row vals) := by
  obtain ⟨hops, hgrid⟩ := hf
  constructor
  · intro op hop
    rw [applyWrite] at hop
    simp only [List.mem_append, List.mem_singleton] at hop
    rcases hop with hop | hop
    · exact hops op hop
    · right
      rw [hop]
      exact hrow
  · rw [applyWrite]
    simp only
    rw [setValues1_getD_zero _ _ _ hrow]
    exact hgrid

theorem headerFrame_scanRows {Id : Type} [DecidableEq Id] (orig : SheetState)
    (header : List String) (toKey : Rec → Id) (dup : Bool) (upd : Rec) :
    ∀ (rows : List (Nat × Rec)) (s : SheetState), HeaderFrame orig s →
      HeaderFrame orig (scanRows header toKey dup upd s rows).1 := by
  intro rows
  induction rows with
  | nil => intro s hs; exact hs
  | cons p rest ih =>
    intro s hs
    obtain ⟨i, prev⟩ := p
    by_cases h : toKey upd = toKey prev
    · simp only [scanRows, if_pos h]
      have hw := headerFrame_applyWrite orig s (i + 2) [encodeRow header (objectAssign prev upd)]
        hs (by omega)
      cases dup
      · simpa using hw
      · simpa using ih _ hw
    · simp only [scanRows, if_neg h]
      exact ih s hs

theorem headerFrame_mergeFold {Id : Type} [DecidableEq Id] (st : SheetState)
    (header : List String) (toKey : Rec → Id) (dup : Bool) (prev : List Rec) :
    ∀ (us : List Rec) (s : SheetState) (acc : List Rec), HeaderFrame st s →
      HeaderFrame st ((us.foldl
        (fun (acc2 : SheetState × List Rec) upd =>
          if (scanRows header toKey dup upd acc2.1 prev.enum).2
          then ((scanRows header toKey dup upd acc2.1 prev.enum).1, acc2.2)
          else ((scanRows header toKey dup upd acc2.1 prev.enum).1, acc2.2 ++ [upd]))
        (s, acc)).1) := by
  intro us
  induction us with
  | nil => intro s acc hs; exact hs
  | cons u us ih =>
    intro s acc hs
    rw [List.foldl_cons]
    have hscan := headerFrame_scanRows st header toKey dup u prev.enum s hs
    by_cases h2 : (scanRows header toKey dup u s prev.enum).2
    · rw [if_pos h2]
      exact ih _ _ hscan
    · rw [if_neg h2]
      exact ih _ _ hscan

/-- C10 (amended): for every sheet whose header row (row 1) has content,
`updateOrInsertBy` never writes to row 1: every logged write it adds targets
a row index of at least 2 (in-place updates go to match index + 2, the
batched append starts at lastRow + 1 which is at least 2), and row 1 of the
grid is left unchanged. -/
theorem updateOrInsertBy_preserves_header_row {Id : Type} [DecidableEq Id]
    (st : SheetState) (header : List String) (data : List Rec) (toKey : Rec → Id)
    (dup : Bool) (hhead : isBlankRow (st.grid.getD 0 []) = false) :
    (∀ op ∈ (updateOrInsertBy st header data toKey dup).writes,
      op ∈ st.writes ∨ 2 ≤ op.row)
    ∧ (updateOrInsertBy st header data toKey dup).grid.getD 0 []
        = st.grid.getD 0 [] := by
  suffices h : HeaderFrame st (updateOrInsertBy st header data toKey dup) from ⟨h.1, h.2⟩
  rw [updateOrInsertBy]
  by_cases hd : data.length = 0
  · rw [if_pos hd]
    exact headerFrame_refl st
  · rw [if_neg hd]
    simp only
    have hfold := headerFrame_mergeFold st header toKey dup (decodeSheet st.grid)
      (dedupByKey toKey data) st [] (headerFrame_refl st)
    split
    · rw [append]
      split
      · exact hfold
      · apply headerFrame_applyWrite _ _ _ _ hfold
        have hpos : 1 ≤ getLastRow
            ((List.foldl
              (fun (acc2 : SheetState × List Rec) upd =>
                if (scanRows header toKey dup upd acc2.1 (decodeSheet st.grid).enum).2
                then ((scanRows header toKey dup upd acc2.1 (decodeSheet st.grid).enum).1,
                  acc2.2)
                else ((scanRows header toKey dup upd acc2.1 (decodeSheet st.grid).enum).1,
                  acc2.2 ++ [upd]))
              (st, []) (dedupByKey toKey data)).1).grid := by
          apply getLastRow_pos
          rw [hfold.2]
          exact hhead
        omega
    · exact hfold

/-- Witness for C10 (amended): on a sheet with a non-blank header row, the
upsert's only write targets row 2 and row 1 is unchanged. -/
theorem updateOrInsertBy_preserves_header_row_witness :
    isBlankRow (([[strv "id", strv "a", strv "b"],
        [numv 1, strv "x", strv "y"]] : Grid).getD 0 []) = false
    ∧ ((∀ op ∈ (updateOrInsertBy ⟨exGrid1, []⟩ ["id", "a", "b"] [exUpd1] exToId
          false).writes, op ∈ ([] : List WriteOp) ∨ 2 ≤ op.row)
      ∧ (updateOrInsertBy ⟨exGrid1, []⟩ ["id", "a", "b"] [exUpd1] exToId
          false).grid.getD 0 [] = exGrid1.getD 0 []) :=
  ⟨by decide,
    updateOrInsertBy_preserves_header_row ⟨exGrid1, []⟩ ["id", "a", "b"] [exUpd1] exToId
      false (by decide)⟩

/-- C10 counterexample: `getLastRow` of `cexGrid10` is 2 (so lastRow is at
least 1), yet `updateOrInsertBy` logs a write targeting row 1 and changes
row 1 of the grid: the matched update blanks the only content row, dropping
`getLastRow` to 0, so the subsequent append starts at row 0 + 1 = 1. The
claim's hypothesis `lastRow at least 1` does not rule this out; a non-blank
header row is required. -/
theorem updateOrInsertBy_writes_header_row_cex :
    1 ≤ getLastRow cexGrid10
    ∧ (∃ op ∈ (updateOrInsertBy ⟨cexGrid10, []⟩ ["z"] [cexUpd10a, cexUpd10b]
        cexToKey10 false).writes, op.row = 1)
    ∧ (updateOrInsertBy ⟨cexGrid10, []⟩ ["z"] [cexUpd10a, cexUpd10b]
        cexToKey10 false).grid.getD 0 [] ≠ cexGrid10.getD 0 [] := by
  refine ⟨by decide, ⟨⟨1, [[strv "w"]]⟩, ?_, rfl⟩, by decide⟩
  decide

/-- Witness for C4: on the demo service, an unknown workbook id and an
unknown sheet name each fail construction with the propagated lookup error,
and the valid pair succeeds. -/
theorem mapper_construct_propagates_lookup_errors_witness :
    Mapper.construct demoService ⟨"other", "table", ["id"], exToId⟩
        = Except.error "workbook not found"
      ∧ Mapper.construct demoService ⟨"workbook-1", "other", ["id"], exToId⟩
        = Except.error "sheet not found"
      ∧ Mapper.construct demoService demoInit
        = Except.ok ⟨demoInit, ⟨exGrid8, []⟩⟩ := by
  refine ⟨?_, ?_, ?_⟩
  · exact (mapper_construct_propagates_lookup_errors demoService _).1
      "workbook not found" (by simp [demoService])
  · exact (mapper_construct_propagates_lookup_errors demoService _).2.1
      () "sheet not found" (by simp [demoService]) (by simp [demoService])
  · exact (mapper_construct_propagates_lookup_errors demoService demoInit).2.2
      () ⟨exGrid8, []⟩ (by simp [demoService, demoInit]) (by simp [demoService, demoInit])

/-- C2 counterexample: with a key function under which merging changes a
row's identifier, running `updateOrInsertBy` twice with the same batch does
NOT produce the same final sheet state as running it once. After the first
run rewrites row 2 (moving its identifier from k1 to k2), the second run
matches the second record against the REWRITTEN row 2 first, overwrites it
differently, and re-appends the first record, so the grids differ. -/
theorem updateOrInsertBy_not_idempotent_cex :
    (updateOrInsertBy (updateOrInsertBy ⟨cexGrid2, []⟩ ["a", "b"]
        [cexUpd2a, cexUpd2b] cexToKey2 false) ["a", "b"]
        [cexUpd2a, cexUpd2b] cexToKey2 false).grid
      ≠ (updateOrInsertBy ⟨cexGrid2, []⟩ ["a", "b"]
          [cexUpd2a, cexUpd2b] cexToKey2 false).grid
    ∧ (updateOrInsertBy ⟨cexGrid2, []⟩ ["a", "b"]
        [cexUpd2a, cexUpd2b] cexToKey2 false).grid
      = [[strv "a", strv "b"], [strv "U", strv "B1"], [strv "A2", strv "B2"]]
    ∧ (updateOrInsertBy (updateOrInsertBy ⟨cexGrid2, []⟩ ["a", "b"]
        [cexUpd2a, cexUpd2b] cexToKey2 false) ["a", "b"]
        [cexUpd2a, cexUpd2b] cexToKey2 false).grid
      = [[strv "a", strv "b"], [strv "A2", strv "B2"], [strv "A2", strv "B2"],
         [strv "U", none]] := by
  refine ⟨?_, by rfl, by rfl⟩
  decide

/-- C2 (amended): running `updateOrInsertBy` twice with the same batch
(duplicate=false, the Mapper default) produces the same final grid as running
it once, provided the sheet is well-formed for the header (row 1 spells the
header, data rows are no wider than the header, there are no trailing blank
rows) and the batch is compatible with the key function (each record's fields
lie within the header, each record has at least one non-empty header field,
and merging a record into any existing record preserves the record's
identifier — e.g. any field projection present on all records). The second
run matches every record at the row the first run put it in and rewrites it
with an identical value, appending nothing. -/
theorem updateOrInsertBy_idempotent {Id : Type} [DecidableEq Id]
    (st : SheetState) (header : List String) (rows : Grid) (data : List Rec)
    (toKey : Rec → Id)
    (hgrid : st.grid = headerCells header :: rows)
    (hwidth : ∀ row ∈ rows, row.length ≤ header.length)
    (hlast : getLastRow (headerCells header :: rows) = rows.length + 1)
    (hsupp : ∀ u ∈ data, ∀ k, u k ≠ none → k ∈ header)
    (hnonblank : ∀ u ∈ data, ∃ k ∈ header, u k ≠ none)
    (hkey : ∀ u ∈ data, ∀ r : Rec, toKey (objectAssign r u) = toKey u) :
    (updateOrInsertBy (updateOrInsertBy st header data toKey false)
        header data toKey false).grid
      = (updateOrInsertBy st header data toKey false).grid := by
  by_cases hd : data.length = 0
  · have h1 : updateOrInsertBy st header data toKey false = st := by
      rw [updateOrInsertBy, if_pos hd]
    rw [h1, h1]
  · set merged := dedupByKey toKey data with hmerged
    set pd := decodeSheet st.grid with hpd
    set rowsF := merged.foldl (mergeRowsStep header toKey pd) rows with hrowsF
    set q := merged.filter (fun u => (firstMatchIdx toKey u pd).isNone) with hqdef
    set qEnc := q.map (fun entry => encodeRow header entry) with hqEncDef
    set dataRows1 := rowsF ++ qEnc with hdataRows1
    have hhne : header ≠ [] := by
      match data, hd with
      | u :: _, _ =>
        obtain ⟨k, hk, _⟩ := hnonblank u (List.mem_cons_self _ _)
        intro hh
        rw [hh] at hk
        exact absurd hk (List.not_mem_nil k)
    have hdec0 : pd = rows.map (fun row => _rawDecoder (headerCells header)
        (padCols row header.length)) := by
      rw [hpd, hgrid]
      exact decodeSheet_cons_eq header rows hwidth hlast
    have hlpd : pd.length = rows.length := by
      rw [hdec0]
      simp
    have hsupp0 : ∀ p k, pd.getD p emptyRec k ≠ none → k ∈ header := by
      intro p k hk
      by_cases hp : p < pd.length
      · rw [hdec0] at hk
        rw [map_getD rows _ p [] emptyRec (by rw [← hlpd]; exact hp)] at hk
        by_contra hkk
        exact hk (decoded_support header _ k hkk)
      · have h0 : pd.getD p emptyRec = emptyRec := by
          rw [List.getD_eq_getElem?_getD, List.getElem?_eq_none (by omega)]
          rfl
        rw [h0] at hk
        exact absurd rfl hk
    have hmsub : ∀ u ∈ merged, u ∈ data := by
      rw [hmerged]
      exact dedup_subset toKey data
    have hinj : ∀ x ∈ merged, ∀ y ∈ merged, toKey x = toKey y → x = y := by
      rw [hmerged]
      exact nodup_map_inj toKey _ (dedup_key_nodup toKey data)
    have hkeyM : ∀ u ∈ merged, ∀ r : Rec, toKey (objectAssign r u) = toKey u :=
      fun u hu => hkey u (hmsub u hu)
    have hnb2 : ∀ u ∈ merged, ∃ k ∈ header, u k ≠ none :=
      fun u hu => hnonblank u (hmsub u hu)
    have hqsub : ∀ v ∈ q, v ∈ merged := by
      rw [hqdef]
      exact fun v hv => List.mem_of_mem_filter hv
    have hqkeys : (q.map toKey).Nodup := by
      rw [hqdef, hmerged]
      exact ((List.filter_sublist _).map toKey).nodup (dedup_key_nodup toKey data)
    have hG1 : (updateOrInsertBy st header data toKey false).grid
        = headerCells header :: dataRows1 := by
      rw [hdataRows1, hqEncDef, hqdef, hrowsF, hpd, hmerged]
      exact run1_shape st header rows data toKey hgrid hwidth hlast hd hnonblank
    have hlenF : rowsF.length = rows.length := by
      rw [hrowsF]
      exact mergeRowsFold_length header toKey pd merged rows
    have hwF : ∀ row ∈ rowsF, row.length ≤ header.length := by
      rw [hrowsF]
      exact mergeRowsFold_width header toKey pd merged rows hwidth
    have hw1 : ∀ row ∈ dataRows1, row.length ≤ header.length := by
      rw [hdataRows1]
      intro row hrow
      rcases List.mem_append.mp hrow with h | h
      · exact hwF row h
      · rw [hqEncDef] at h
        obtain ⟨u, _, hu⟩ := List.mem_map.mp h
        rw [← hu]
        simp [encodeRow]
    have hlen1 : dataRows1.length = rows.length + q.length := by
      rw [hdataRows1, hqEncDef]
      simp [hlenF]
    have hlast1 : getLastRow (headerCells header :: dataRows1) = dataRows1.length + 1 := by
      apply getLastRow_cons_eq_len
      · intro _
        exact isBlankRow_headerCells header hhne
      · intro row hrow
        by_cases hqnil : q = []
        · rw [hdataRows1, hqEncDef, hqnil] at hrow
          simp only [List.map_nil, List.append_nil] at hrow
          rw [hrowsF] at hrow
          exact mergeRowsFold_last_nonblank header toKey pd merged rows
            (rows_last_nonblank_of header rows hlast) hnb2 row hrow
        · have hqe : qEnc ≠ [] := by
            rw [hqEncDef]
            simpa using hqnil
          rw [hdataRows1, getLast?_append_ne rowsF qEnc hqe] at hrow
          have hget := getLast?_eq_getD qEnc [] hqe
          rw [hget] at hrow
          injection hrow with hrow
          have hqpos : 1 ≤ q.length := by
            match q, hqnil with
            | x :: t, _ => simp
          have hrow2 : row = encodeRow header (q.getD (q.length - 1) emptyRec) := by
            rw [← hrow, hqEncDef]
            simp only [List.length_map]
            exact map_getD q _ (q.length - 1) emptyRec [] (by omega)
          rw [hrow2]
          obtain ⟨k, hk, hkne⟩ := hnb2 _
            (hqsub _ (getD_mem q (q.length - 1) emptyRec (by omega)))
          exact isBlankRow_encodeRow header _ k hk hkne
    have hdec1 : decodeSheet (updateOrInsertBy st header data toKey false).grid
        = dataRows1.map (fun row => _rawDecoder (headerCells header)
            (padCols row header.length)) := by
      rw [hG1]
      exact decodeSheet_cons_eq header dataRows1 hw1 hlast1
    set pd1 := decodeSheet (updateOrInsertBy st header data toKey false).grid with hpd1
    have hlpd1 : pd1.length = dataRows1.length := by
      rw [hdec1]
      simp
    have hK1 : ∀ u ∈ merged, ∀ j, firstMatchIdx toKey u pd = some j →
        pd1.getD j emptyRec = objectAssign (pd.getD j emptyRec) u
        ∧ dataRows1.getD j [] = encodeRow header (objectAssign (pd.getD j emptyRec) u) := by
      intro u hu j hm
      have hj : j < rows.length := by
        have := firstMatchIdx_lt_length toKey u pd j hm
        omega
      have hval : ∀ u2 ∈ merged, firstMatchIdx toKey u2 pd = some j →
          encodeRow header (objectAssign (pd.getD j emptyRec) u2)
            = encodeRow header (objectAssign (pd.getD j emptyRec) u) := by
        intro u2 hu2 hm2
        have hkeq : toKey u2 = toKey u :=
          (firstMatchIdx_getD_key toKey u2 pd j hm2).trans
            (firstMatchIdx_getD_key toKey u pd j hm).symm
        rw [hinj u2 hu2 u hu hkeq]
      have hrF : rowsF.getD j [] = encodeRow header (objectAssign (pd.getD j emptyRec) u) := by
        rw [hrowsF]
        exact mergeRowsFold_getD_set header toKey pd merged rows j _ hval ⟨u, hu, hm⟩
          (by omega)
      have hd1 : dataRows1.getD j [] = rowsF.getD j [] := by
        rw [hdataRows1]
        exact List.getD_append _ _ _ _ (by omega)
      refine ⟨?_, by rw [hd1, hrF]⟩
      rw [hdec1, map_getD dataRows1 _ j [] emptyRec (by omega)]
      simp only [hd1, hrF, decodeRow_encodeRow]
      exact restrictRec_of_supported _ header
        (objectAssign_supported _ _ header (hsupp0 j) (hsupp u (hmsub u hu)))
    have hK2 : ∀ p, p < rows.length → (∀ u2 ∈ merged, firstMatchIdx toKey u2 pd ≠ some p) →
        pd1.getD p emptyRec = pd.getD p emptyRec := by
      intro p hp hnone
      have hrF : rowsF.getD p [] = rows.getD p [] := by
        rw [hrowsF]
        exact mergeRowsFold_getD_unchanged header toKey pd merged rows p hnone
      have hd1 : dataRows1.getD p [] = rows.getD p [] := by
        rw [hdataRows1, List.getD_append _ _ _ _ (by omega), hrF]
      rw [hdec1, map_getD dataRows1 _ p [] emptyRec (by omega)]
      simp only [hd1]
      rw [hdec0, map_getD rows _ p [] emptyRec hp]
    have hK3 : ∀ t, t < q.length → pd1.getD (rows.length + t) emptyRec = q.getD t emptyRec
        ∧ dataRows1.getD (rows.length + t) [] = encodeRow header (q.getD t emptyRec) := by
      intro t ht
      have hd1 : dataRows1.getD (rows.length + t) []
          = encodeRow header (q.getD t emptyRec) := by
        rw [hdataRows1, List.getD_append_right _ _ _ _ (by omega),
          show rows.length + t - rowsF.length = t from by omega, hqEncDef]
        exact map_getD q _ t emptyRec [] ht
      refine ⟨?_, hd1⟩
      rw [hdec1, map_getD dataRows1 _ (rows.length + t) [] emptyRec (by omega)]
      simp only [hd1, decodeRow_encodeRow]
      exact restrictRec_of_supported _ header
        (hsupp (q.getD t emptyRec) (hmsub _ (hqsub _ (getD_mem q t emptyRec ht))))
    have hM1 : ∀ u ∈ merged, ∃ i, firstMatchIdx toKey u pd1 = some i
        ∧ dataRows1.getD i [] = encodeRow header (objectAssign (pd1.getD i emptyRec) u)
        ∧ i < dataRows1.length := by
      intro u hu
      cases hm : firstMatchIdx toKey u pd with
      | some j =>
        have hj : j < rows.length := by
          have := firstMatchIdx_lt_length toKey u pd j hm
          omega
        obtain ⟨h1, h2⟩ := idem_match_case header toKey merged pd pd1 dataRows1 rows.length
          hlpd hlpd1 (by omega) hinj hkeyM hK1 hK2 u hu j hm
        exact ⟨j, h1, h2, by omega⟩
      | none =>
        have huq : u ∈ q := by
          rw [hqdef]
          exact List.mem_filter.mpr ⟨hu, by rw [hm]; rfl⟩
        obtain ⟨t, ht, hqt⟩ := mem_getD q u emptyRec huq
        obtain ⟨h1, h2⟩ := idem_append_case header toKey merged pd pd1 dataRows1 rows.length q
          hlpd hlpd1 hlen1 hinj hkeyM hK1 hK2 hK3 hqsub hqkeys u hu hm t ht hqt
        exact ⟨rows.length + t, h1, h2, by omega⟩
    rw [updateOrInsertBy_grid_decomp (updateOrInsertBy st header data toKey false)
      header data toKey hd, ← hpd1, ← hmerged]
    have hq2 : (merged.filter (fun u => (firstMatchIdx toKey u pd1).isNone)).length = 0 := by
      rw [List.length_eq_zero]
      apply List.filter_eq_nil_iff.mpr
      intro u hu
      obtain ⟨i, hi, _, _⟩ := hM1 u hu
      simp [hi]
    rw [if_pos hq2]
    apply foldl_fixed
    intro u hu
    obtain ⟨i, hi, hval, hilen⟩ := hM1 u hu
    have hstep : mergeGridStep header toKey pd1 (updateOrInsertBy st header data toKey
        false).grid u = setValues1 (updateOrInsertBy st header data toKey false).grid
        (i + 2) [encodeRow header (objectAssign (pd1.getD i emptyRec) u)] := by
      rw [mergeGridStep, hi]
    rw [hstep, hG1, ← hval,
      setValues1_cons_set (headerCells header) dataRows1 i _ hilen le_rfl,
      set_getD_self]

/-- Witness for C2 (amended): on the spec's own sheet `id,a,b / 1,x,y`, the
batch holding the partial record `id 1, a z` and the new record `id 2, a n,
b m`, keyed by the `id` projection, satisfies all hypotheses, and running the
upsert twice yields the same grid as running it once. -/
theorem updateOrInsertBy_idempotent_witness :
    (updateOrInsertBy (updateOrInsertBy ⟨exGrid1, []⟩ ["id", "a", "b"]
        [exUpd1, exUpdNew] exToId false) ["id", "a", "b"]
        [exUpd1, exUpdNew] exToId false).grid
      = (updateOrInsertBy ⟨exGrid1, []⟩ ["id", "a", "b"]
          [exUpd1, exUpdNew] exToId false).grid := by
  apply updateOrInsertBy_idempotent ⟨exGrid1, []⟩ ["id", "a", "b"]
    [[numv 1, strv "x", strv "y"]] [exUpd1, exUpdNew] exToId rfl
  · decide
  · decide
  · intro u hu k hk
    simp only [List.mem_cons, List.not_mem_nil, or_false] at hu
    rcases hu with hu | hu <;> subst hu
    · simp only [exUpd1] at hk
      by_cases h1 : k = "id"
      · simp [h1]
      · by_cases h2 : k = "a"
        · simp [h2]
        · simp [h1, h2] at hk
    · simp only [exUpdNew] at hk
      by_cases h1 : k = "id"
      · simp [h1]
      · by_cases h2 : k = "a"
        · simp [h2]
        · by_cases h3 : k = "b"
          · simp [h3]
          · simp [h1, h2, h3] at hk
  · decide
  · intro u hu r
    simp only [List.mem_cons, List.not_mem_nil, or_false] at hu
    rcases hu with hu | hu <;> subst hu <;> rfl

end SheetNinja
